import Mathlib

/-!
# CalendarSync — shallow embedding of `sync_calendars.py`

This file embeds the reconciliation engine of the CalendarSync repository
(`src/sync_calendars.py`, class `CalendarSync`) as executable Lean
definitions and proves or refutes the frozen specification claims against
them.

Modelling conventions (the external collaborators of spec §6 are abstracted
at their interface boundary, the core logic is translated line by line):

* System A is Google Calendar, system B is iCloud, as in the source.
* Timestamp strings are modelled by `TimeVal`: a string that
  `datetime.fromisoformat` parses is represented by the parsed instant
  (an `Int`, a point on one abstract timeline) together with the Python
  tz-awareness flag of the parsed `datetime`; an unparseable string is
  `TimeVal.bad s`.  Comparison of two ISO strings of the same instant
  format (`time_min <= event_dt.isoformat() <= time_max`, lines 338) is
  modelled as inclusive comparison of instants; comparison of two
  `datetime` objects (line 541) succeeds only when the two sides agree on
  awareness — Python raises `TypeError` when a naive `datetime.now()` is
  compared with an aware value, which the model renders as `none`.
* The Google narrow-window query result is the list `List GEvent`; creates
  issued by the engine append to it and deletes remove by id (the created
  records carry starts inside the scan window, so they reappear in later
  snapshots).  The iCloud calendar is a list of CalDAV objects
  `ICloudObj`; each carries the two flags `inNarrow` / `inWide` stating
  whether the server returns it for `date_search(now-1d, now+90d)` resp.
  `date_search(now-365d, now+365d)`.
* `Env` packages the external inputs of one pass: the clock
  (`timeMin = now - 1 day`, `timeMax = now + 90 days`, `nowIso` the
  `datetime.now().isoformat()` string stored in `synced_at`), the
  transport failure behaviour of the two `create` endpoints, and the
  native id Google assigns to an inserted event.  Error strings produced
  by the model stand for the corresponding Python exception text.
* Python dict semantics (insertion order, overwrite in place, first-match
  lookup) are embedded by the association-list operations `alookup`,
  `ainsert`, `aerase`.
-/

set_option maxHeartbeats 1000000

namespace CalendarSync

/-- A timestamp-valued string: either a string `datetime.fromisoformat`
parses (carrying the parsed instant and the tz-awareness of the result),
or an unparseable string. -/
inductive TimeVal where
  | dt (aware : Bool) (t : Int)
  | bad (s : String)
deriving DecidableEq, Repr

/-- `datetime.fromisoformat(s.replace('Z', '+00:00'))`: `some` of the
awareness flag and instant on success, `none` when Python raises
`ValueError`. -/
def fromiso : TimeVal → Option (Bool × Int)
  | .dt a t => some (a, t)
  | .bad _ => none

/-- One event as returned by the Google Calendar `events().list` call:
`id`, `iCalUID` (`""` when the key is absent, matching
`event.get('iCalUID', '')`), `summary`/`description` (`none` when the key
is absent), and the strings extracted by
`event['start'].get('dateTime', event['start'].get('date'))` (same for
`end`). -/
structure GEvent where
  id : String
  iCalUID : String
  summary : Option String
  description : Option String
  start : TimeVal
  end_ : TimeVal
deriving DecidableEq, Repr

/-- One VEVENT component of a parsed iCloud iCalendar object: `uid`,
the `recurrence-id` rendered as a string when present, `summary`,
`description`, `dtstart.dt`, `dtend.dt`. -/
structure VEvent where
  uid : String
  recurrenceId : Option String
  summary : Option String
  description : Option String
  dtstart : TimeVal
  dtend : TimeVal
deriving DecidableEq, Repr

/-- The payload of one CalDAV object: `bad` when `Calendar.from_ical`
raises, otherwise the list of VEVENT components found by `ical.walk()`. -/
inductive ICalData where
  | bad
  | cal (ves : List VEvent)
deriving DecidableEq, Repr

/-- One object stored in the iCloud calendar, together with whether the
server returns it for the narrow propagation search
(`date_search(now-1d, now+90d)`) and for the wide deletion search
(`date_search(now-365d, now+365d)`). -/
structure ICloudObj where
  data : ICalData
  inNarrow : Bool
  inWide : Bool
deriving DecidableEq, Repr

/-- One value of the persisted `synced_events` map (spec: SyncedEntry).
`syncFailed` is `false` when the `sync_failed` key is absent. -/
structure SyncedEntry where
  title : Option String
  syncedAt : String
  source : String
  start : Option TimeVal
  syncFailed : Bool
  error : Option String
deriving DecidableEq, Repr

/-- The `synced_events` dict, as an insertion-ordered association list. -/
abbrev Entries := List (String × SyncedEntry)

/-- The whole persisted sync state (`load_state` shape). -/
structure SyncState where
  lastSync : Option String
  lastError : Option String
  syncedEvents : Entries
deriving DecidableEq, Repr

/-- Dict lookup: first entry with the given key. -/
def alookup {α : Type} : List (String × α) → String → Option α
  | [], _ => none
  | (k', v) :: rest, k => if k' = k then some v else alookup rest k

/-- Dict assignment `m[k] = v`: overwrite in place when the key exists,
append otherwise. -/
def ainsert {α : Type} : List (String × α) → String → α → List (String × α)
  | [], k, v => [(k, v)]
  | (k', v') :: rest, k, v =>
    if k' = k then (k, v) :: rest else (k', v') :: ainsert rest k v

/-- Dict deletion `del m[k]`: remove the first entry with the given key. -/
def aerase {α : Type} : List (String × α) → String → List (String × α)
  | [], _ => []
  | (k', v') :: rest, k => if k' = k then rest else (k', v') :: aerase rest k

/-- External inputs of one pass: the clock and the transport behaviour of
the two event sources.  `saveErr uid` is the exception text raised by
`icloud_calendar.save_event` for the iCal object with that uid (`none` =
success); `insertErr key` likewise for `google_service.events().insert`
of the event carrying `iCalUID = key`; `assignId key` is the native id
Google assigns to that inserted event. -/
structure Env where
  timeMin : Int
  timeMax : Int
  nowIso : String
  saveErr : String → Option String
  insertErr : String → Option String
  assignId : String → String

/-- External mutating calls issued by the engine, in program order:
create at iCloud (`save_event`), delete at iCloud (`icloud_event.delete`),
create at Google (`events().insert`), delete at Google
(`events().delete`). -/
inductive Act where
  | createB (uid : String)
  | delB (uid : String)
  | createA (key : String)
  | delA (key : String)
deriving DecidableEq, Repr

/-- The per-direction result dict
`{'added', 'deleted', 'added_events', 'deleted_events', 'errors'}`. -/
structure DirResult where
  added : Nat
  deleted : Nat
  errors : Nat
  addedEvents : List (Option String × TimeVal)
  deletedEvents : List (Option String × Option TimeVal)
deriving DecidableEq, Repr

/-- The empty-result placeholder for a direction that never ran. -/
def emptyDirResult : DirResult := ⟨0, 0, 0, [], []⟩

/-- Outcome of one direction function: `err = some e` when the function
raised `e` out of its body (the calendars and entries then hold the
mutations performed before the raise, which Python keeps in
`self.state`); the two calendars, the `synced_events` dict, the returned
result dict and the external-call trace. -/
structure DirOut where
  err : Option String
  google : List GEvent
  icloud : List ICloudObj
  entries : Entries
  result : DirResult
  trace : List Act
deriving Repr

/-- `str(component.get('summary'))`: Python renders a missing component
as the string `"None"`. -/
def strOpt (o : Option String) : String := o.getD "None"

/-- Python truthiness of an optional string (`if event.get('description'):`). -/
def optTruthy (o : Option String) : Bool := o.getD "" ≠ ""

/-- The VEVENTs of one object: none when parsing raised. -/
def objVEvents (o : ICloudObj) : List VEvent :=
  match o.data with
  | .bad => []
  | .cal ves => ves

/-- Lines 216-224 and 436-442: the cross-system key of a VEVENT —
`uid + "_" + recurrence` for a recurring instance, the bare uid
otherwise. -/
def veKey (ve : VEvent) : String :=
  match ve.recurrenceId with
  | some r => ve.uid ++ "_" ++ r
  | none => ve.uid

def listFlat {α : Type} : List (List α) → List α
  | [] => []
  | l :: ls => l ++ listFlat ls

/-- Lines 202-229: keys of `existing_icloud_events`, built from the
narrow-window iCloud search (objects whose parse raises are skipped). -/
def existing_icloud_keys (objs : List ICloudObj) : List String :=
  listFlat ((objs.filter (·.inNarrow)).map (fun o => (objVEvents o).map veKey))

/-- `charsStart pre s`: the character list `pre` is an initial segment of
`s` (kernel-reducible helper for Python's `str.startswith`). -/
def charsStart : List Char → List Char → Bool
  | [], _ => true
  | _ :: _, [] => false
  | c :: cs, d :: ds => c == d && charsStart cs ds

/-- Python's `s.startswith(pre)`. -/
def strStartsWith (s pre : String) : Bool := charsStart pre.data s.data

/-- Lines 241-245: the provenance test of the Google → iCloud direction —
a record is treated as originating from iCloud (Foreign) exactly when it
carries a non-empty `iCalUID` that does not start with its own event id
(`ical_uid and not ical_uid.startswith(event_uid)`). -/
def originatedFromIcloud (ev : GEvent) : Bool :=
  ev.iCalUID ≠ "" && !(strStartsWith ev.iCalUID ev.id)

/-- Lines 253-263: the entry recorded when the event already exists in
iCloud (dedup path).  Note `'source': 'icloud' if event.get('iCalUID')
else 'google'`. -/
def dedupEntryA (o : Env) (ev : GEvent) : SyncedEntry :=
  { title := ev.summary
    syncedAt := o.nowIso
    source := if ev.iCalUID ≠ "" then "icloud" else "google"
    start := some ev.start
    syncFailed := false
    error := none }

/-- Lines 298-312: the entry recorded on a successful `save_event`. -/
def successEntryA (o : Env) (ev : GEvent) : SyncedEntry :=
  { title := ev.summary
    syncedAt := o.nowIso
    source := "google"
    start := some ev.start
    syncFailed := false
    error := none }

/-- Lines 313-324: the entry recorded when `save_event` raises `msg`. -/
def failEntryA (o : Env) (ev : GEvent) (msg : String) : SyncedEntry :=
  { title := ev.summary
    syncedAt := o.nowIso
    source := "google"
    start := some ev.start
    syncFailed := true
    error := some msg }

/-- Lines 266-296: the iCal object written to iCloud for a Google event —
a single VEVENT with the Google event id as uid, summary defaulted to
`'No Title'`, description added only when truthy, and the event's own
start/end instants (converted to UTC, which leaves the instant fixed).
Its start lies inside the narrow scan window, so later searches return
it (`inNarrow`/`inWide` true). -/
def createdIcloudObj (ev : GEvent) : ICloudObj :=
  { data := .cal [{ uid := ev.id
                    recurrenceId := none
                    summary := some (ev.summary.getD "No Title")
                    description := if optTruthy ev.description then ev.description else none
                    dtstart := ev.start
                    dtend := ev.end_ }]
    inNarrow := true
    inWide := true }

/-- Accumulator of the Google → iCloud add loop (lines 233-324): the
iCloud calendar, the `synced_events` dict, `synced_count`, `error_count`,
`added_events`, the external-call trace, and the pending exception when
an unparseable start/end string made `datetime.fromisoformat` raise out
of the loop. -/
structure AccA where
  icloud : List ICloudObj
  entries : Entries
  synced : Nat
  errs : Nat
  adds : List (Option String × TimeVal)
  tr : List Act
  err : Option String
deriving Repr

/-- One iteration of the Google → iCloud add loop (lines 233-324). -/
def addStepA (o : Env) (exKeys : List String) (acc : AccA) (ev : GEvent) : AccA :=
  if originatedFromIcloud ev then acc
  else if (alookup acc.entries ev.id).isSome then acc
  else if exKeys.contains ev.id then
    { acc with entries := ainsert acc.entries ev.id (dedupEntryA o ev) }
  else
    match fromiso ev.start, fromiso ev.end_ with
    | some _, some _ =>
      let tr' := acc.tr ++ [Act.createB ev.id]
      match o.saveErr ev.id with
      | none =>
        { acc with
          icloud := acc.icloud ++ [createdIcloudObj ev]
          entries := ainsert acc.entries ev.id (successEntryA o ev)
          synced := acc.synced + 1
          adds := acc.adds ++ [(ev.summary, ev.start)]
          tr := tr' }
      | some msg =>
        { acc with
          entries := ainsert acc.entries ev.id (failEntryA o ev msg)
          errs := acc.errs + 1
          tr := tr' }
    | _, _ => { acc with err := some "ValueError: invalid isoformat string" }

/-- The Google → iCloud add loop; a raise stops the loop at the raising
event. -/
def addLoopA (o : Env) (exKeys : List String) (acc : AccA) : List GEvent → AccA
  | [] => acc
  | ev :: rest =>
    let acc' := addStepA o exKeys acc ev
    if acc'.err.isSome then acc' else addLoopA o exKeys acc' rest

/-- Lines 332-338: the windowing test of the Google-side deletion
detection — the entry's `start` string parses and the parsed instant's
ISO rendering lies between `time_min` and `time_max`. -/
def inWindowStr (o : Env) (e : SyncedEntry) : Bool :=
  match e.start with
  | none => false
  | some sv =>
    match fromiso sv with
    | some (_, t) => decide (o.timeMin ≤ t) && decide (t ≤ o.timeMax)
    | none => false

/-- Lines 328-343: an entry is selected for deletion from iCloud when its
source is `'google'`, its start is inside the scan window, and its key is
absent from the current Google snapshot. -/
def selectedForDeleteA (o : Env) (ids : List String) (p : String × SyncedEntry) : Bool :=
  p.2.source == "google" && inWindowStr o p.2 && !(ids.contains p.1)

/-- Lines 328-343: `events_to_delete`, in dict insertion order. -/
def events_to_delete_A (o : Env) (ids : List String) (es : Entries) : List String :=
  (es.filter (selectedForDeleteA o ids)).map (·.1)

/-- Line 353-358: does this object contain a VEVENT whose uid equals the
tracked key? -/
def objHasUid (obj : ICloudObj) (k : String) : Bool :=
  (objVEvents obj).any (fun ve => ve.uid == k)

/-- Accumulator of the iCloud deletion loop (lines 346-372). -/
structure DelAccA where
  entries : Entries
  deleted : Nat
  dels : List (Option String × Option TimeVal)
  tr : List Act
deriving Repr

/-- Lines 349-370: scan the wide-window search result for one tracked key.
Every object carrying a VEVENT with that uid is deleted and counted; the
state entry is removed at the first such object, and the `KeyError` a
second match raises when re-reading the removed entry is swallowed by the
per-object `except`. Objects outside the wide window are untouched. -/
def delScanA (k : String) (acc : DelAccA) : List ICloudObj → List ICloudObj × DelAccA
  | [] => ([], acc)
  | obj :: rest =>
    if obj.inWide && objHasUid obj k then
      let acc1 : DelAccA :=
        { acc with deleted := acc.deleted + 1, tr := acc.tr ++ [Act.delB k] }
      let acc2 : DelAccA :=
        match alookup acc1.entries k with
        | some e =>
          { acc1 with
            entries := aerase acc1.entries k
            dels := acc1.dels ++ [(e.title, e.start)] }
        | none => acc1
      delScanA k acc2 rest
    else
      let (rest', acc') := delScanA k acc rest
      (obj :: rest', acc')

/-- Lines 346-372: process `events_to_delete` in order, re-searching the
current calendar for each key. -/
def delLoopA (acc : DelAccA) (icloud : List ICloudObj) : List String → List ICloudObj × DelAccA
  | [] => (icloud, acc)
  | k :: ks =>
    let (ic', acc') := delScanA k acc icloud
    delLoopA acc' ic' ks

/-- Lines 165-383: `CalendarSync.sync_google_to_icloud`.  Fetches the
Google narrow snapshot (`gEvents`), records the current Google ids,
scans iCloud for existing keys, runs the add loop, then the windowed
deletion detection and the iCloud deletion loop. -/
def sync_google_to_icloud (o : Env) (gEvents : List GEvent) (icloud : List ICloudObj)
    (es : Entries) : DirOut :=
  let ids := gEvents.map (·.id)
  let exKeys := existing_icloud_keys icloud
  let a := addLoopA o exKeys ⟨icloud, es, 0, 0, [], [], none⟩ gEvents
  match a.err with
  | some e =>
    ⟨some e, gEvents, a.icloud, a.entries, ⟨a.synced, 0, a.errs, a.adds, []⟩, a.tr⟩
  | none =>
    let todo := events_to_delete_A o ids a.entries
    let (ic', d) := delLoopA ⟨a.entries, 0, [], []⟩ a.icloud todo
    ⟨none, gEvents, ic', d.entries,
      ⟨a.synced, d.deleted, a.errs, a.adds, d.dels⟩, a.tr ++ d.tr⟩

/-- Lines 415-419: keys of `existing_google_events` — `iCalUID` when
present, the native id otherwise. -/
def existing_google_keys (gs : List GEvent) : List String :=
  gs.map (fun g => if g.iCalUID ≠ "" then g.iCalUID else g.id)

/-- The VEVENTs of the narrow iCloud search in scan order (objects whose
parse raises are skipped, line 426-430). -/
def narrowVEvents (objs : List ICloudObj) : List VEvent :=
  listFlat ((objs.filter (·.inNarrow)).map objVEvents)

/-- Lines 434-444: `current_icloud_ids` after the scan — the keys of all
scanned VEVENTs. -/
def current_icloud_ids (objs : List ICloudObj) : List String :=
  (narrowVEvents objs).map veKey

/-- Lines 449-461: the entry recorded when the event already exists in
Google (dedup path of the iCloud → Google direction). -/
def dedupEntryB (o : Env) (ve : VEvent) : SyncedEntry :=
  { title := some (strOpt ve.summary)
    syncedAt := o.nowIso
    source := "icloud"
    start := some ve.dtstart
    syncFailed := false
    error := none }

/-- Lines 498-516: the entry recorded on a successful `events().insert`. -/
def successEntryB (o : Env) (ve : VEvent) : SyncedEntry :=
  { title := some (strOpt ve.summary)
    syncedAt := o.nowIso
    source := "icloud"
    start := some ve.dtstart
    syncFailed := false
    error := none }

/-- Lines 517-527: the entry recorded when `events().insert` raises `msg`.
Its `start` field holds the value the local variable `event_start`
happened to carry from an earlier loop iteration. -/
def failEntryB (o : Env) (ve : VEvent) (stale : TimeVal) (msg : String) : SyncedEntry :=
  { title := some (strOpt ve.summary)
    syncedAt := o.nowIso
    source := "icloud"
    start := some stale
    syncFailed := true
    error := some msg }

/-- Lines 480-502: the Google event created for an iCloud VEVENT — Google
assigns the native id, the iCloud key is preserved in `iCalUID`, the
summary is defaulted to `'No Title'`, and the description is copied only
when truthy. -/
def createdGEvent (o : Env) (ve : VEvent) (k : String) : GEvent :=
  { id := o.assignId k
    iCalUID := k
    summary := some (ve.summary.getD "No Title")
    description := if optTruthy ve.description then some (strOpt ve.description) else none
    start := ve.dtstart
    end_ := ve.dtend }

/-- Accumulator of the iCloud → Google add loop (lines 425-527).
`eventStart` is the Python local variable `event_start`: `none` until an
iteration first assigns it, and referencing it while `none` — which the
failure branch at line 523 does — raises `NameError`, recorded in
`err`. -/
structure AccB where
  google : List GEvent
  entries : Entries
  synced : Nat
  errs : Nat
  adds : List (Option String × TimeVal)
  tr : List Act
  eventStart : Option TimeVal
  err : Option String
deriving Repr

/-- One VEVENT of the iCloud → Google add loop (lines 432-527). -/
def addStepB (o : Env) (exKeys : List String) (acc : AccB) (ve : VEvent) : AccB :=
  let k := veKey ve
  if (alookup acc.entries k).isSome then acc
  else if exKeys.contains k then
    { acc with
      entries := ainsert acc.entries k (dedupEntryB o ve)
      eventStart := some ve.dtstart }
  else
    let tr' := acc.tr ++ [Act.createA k]
    match o.insertErr k with
    | none =>
      { acc with
        google := acc.google ++ [createdGEvent o ve k]
        entries := ainsert acc.entries k (successEntryB o ve)
        synced := acc.synced + 1
        adds := acc.adds ++ [(some (strOpt ve.summary), ve.dtstart)]
        tr := tr'
        eventStart := some ve.dtstart }
    | some msg =>
      match acc.eventStart with
      | none =>
        { acc with tr := tr', err := some "NameError: event_start is not defined" }
      | some stale =>
        { acc with
          entries := ainsert acc.entries k (failEntryB o ve stale msg)
          errs := acc.errs + 1
          tr := tr' }

/-- The iCloud → Google add loop over the scanned VEVENTs; a raise stops
the loop (and, in `run_sync`, the pass) at the raising event. -/
def addLoopB (o : Env) (exKeys : List String) (acc : AccB) : List VEvent → AccB
  | [] => acc
  | ve :: rest =>
    let acc' := addStepB o exKeys acc ve
    if acc'.err.isSome then acc' else addLoopB o exKeys acc' rest

/-- Lines 531-546: the windowing test of the iCloud-side deletion
detection.  `start <= event_dt <= end` compares the naive `datetime.now()`
bounds with the parsed start; when the parsed start is tz-aware Python
raises `TypeError`, which the bare `except` turns into a skip — so the
test holds only for naive parsed starts inside the window. -/
def inWindowNaive (o : Env) (e : SyncedEntry) : Bool :=
  match e.start with
  | none => false
  | some sv =>
    match fromiso sv with
    | some (aware, t) => !aware && decide (o.timeMin ≤ t) && decide (t ≤ o.timeMax)
    | none => false

/-- Lines 531-546: an entry is selected for deletion from Google when its
source is `'icloud'`, its start parses naive inside the window, and its
key is absent from the scanned iCloud ids. -/
def selectedForDeleteB (o : Env) (ids : List String) (p : String × SyncedEntry) : Bool :=
  p.2.source == "icloud" && inWindowNaive o p.2 && !(ids.contains p.1)

/-- Lines 531-546: `events_to_delete` of the iCloud → Google direction. -/
def events_to_delete_B (o : Env) (ids : List String) (es : Entries) : List String :=
  (es.filter (selectedForDeleteB o ids)).map (·.1)

/-- Remove the first Google event with the given id (the effect of a
successful `events().delete`). -/
def eraseById : List GEvent → String → List GEvent
  | [], _ => []
  | g :: rest, k => if g.id = k then rest else g :: eraseById rest k

/-- Accumulator of the Google deletion loop (lines 549-568). -/
structure DelAccB where
  google : List GEvent
  entries : Entries
  deleted : Nat
  dels : List (Option String × Option TimeVal)
  tr : List Act
deriving Repr

/-- Lines 549-568: one `events().delete` call.  When Google holds the id
the event is deleted and counted and the entry removed; when the call
raises (id unknown) the `except` removes the entry anyway without
counting. -/
def delStepB (acc : DelAccB) (k : String) : DelAccB :=
  let acc0 : DelAccB := { acc with tr := acc.tr ++ [Act.delA k] }
  if acc0.google.any (·.id == k) then
    let acc1 : DelAccB :=
      { acc0 with google := eraseById acc0.google k, deleted := acc0.deleted + 1 }
    match alookup acc1.entries k with
    | some e =>
      { acc1 with
        entries := aerase acc1.entries k
        dels := acc1.dels ++ [(e.title, e.start)] }
    | none => acc1
  else
    if (alookup acc0.entries k).isSome then
      { acc0 with entries := aerase acc0.entries k }
    else acc0

/-- Lines 549-568: process `events_to_delete` in order. -/
def delLoopB (acc : DelAccB) : List String → DelAccB
  | [] => acc
  | k :: ks => delLoopB (delStepB acc k) ks

/-- Lines 385-579: `CalendarSync.sync_icloud_to_google`. -/
def sync_icloud_to_google (o : Env) (google : List GEvent) (icloud : List ICloudObj)
    (es : Entries) : DirOut :=
  let ids := current_icloud_ids icloud
  let exKeys := existing_google_keys google
  let a := addLoopB o exKeys ⟨google, es, 0, 0, [], [], none, none⟩ (narrowVEvents icloud)
  match a.err with
  | some e =>
    ⟨some e, a.google, icloud, a.entries, ⟨a.synced, 0, a.errs, a.adds, []⟩, a.tr⟩
  | none =>
    let todo := events_to_delete_B o ids a.entries
    let d := delLoopB ⟨a.google, a.entries, 0, [], []⟩ todo
    ⟨none, d.google, icloud, d.entries,
      ⟨a.synced, d.deleted, a.errs, a.adds, d.dels⟩, a.tr ++ d.tr⟩

/-- Outcome of the two-direction body of `run_sync` (lines 592-593):
`err` when one direction raised, the calendars and entries after the
mutations performed so far, the two direction results, and the combined
external-call trace. -/
structure PassOut where
  err : Option String
  google : List GEvent
  icloud : List ICloudObj
  entries : Entries
  r1 : DirResult
  r2 : DirResult
  trace : List Act
deriving Repr

/-- Lines 592-593: one sync pass — `sync_google_to_icloud` then
`sync_icloud_to_google`, the second skipped when the first raises. -/
def syncPass (o : Env) (google : List GEvent) (icloud : List ICloudObj)
    (es : Entries) : PassOut :=
  let d1 := sync_google_to_icloud o google icloud es
  match d1.err with
  | some e => ⟨some e, d1.google, d1.icloud, d1.entries, d1.result, emptyDirResult, d1.trace⟩
  | none =>
    let d2 := sync_icloud_to_google o d1.google d1.icloud d1.entries
    ⟨d2.err, d2.google, d2.icloud, d2.entries, d1.result, d2.result, d1.trace ++ d2.trace⟩

/-- Outcome of `run_sync`: the return value, the resulting state and
calendars, the external-call trace and the notifications sent (in order).
The error notification is recorded by its deduplicated message body; the
success notification, whose text no property concerns, is recorded by its
constant title. -/
structure RunOut where
  ok : Bool
  st : SyncState
  google : List GEvent
  icloud : List ICloudObj
  trace : List Act
  notifs : List String
deriving Repr

/-- Line 679: the pass-level failure message, which embeds the formatted
elapsed time. -/
def syncFailMsg (timeStr e : String) : String :=
  "Sync failed after " ++ timeStr ++ ": " ++ e

/-- Lines 669-690: the pass-level exception handler — notify and record
`last_error` only when the message differs from the stored one. -/
def errorOutcome (timeStr e : String) (st : SyncState) (google : List GEvent)
    (icloud : List ICloudObj) (tr : List Act) : RunOut :=
  let msg := syncFailMsg timeStr e
  if st.lastError = some msg then ⟨false, st, google, icloud, tr, []⟩
  else ⟨false, { st with lastError := some msg }, google, icloud, tr, [msg]⟩

/-- Lines 581-690: `CalendarSync.run_sync`.  `connErr` is the exception
text when acquiring the Google service or the iCloud calendar fails
(lines 589-590), raised before any stage runs; `timeStr` is the formatted
elapsed time of the pass. -/
def run_sync (o : Env) (connErr : Option String) (timeStr : String)
    (google : List GEvent) (icloud : List ICloudObj) (st : SyncState) : RunOut :=
  match connErr with
  | some e => errorOutcome timeStr e st google icloud []
  | none =>
    let p := syncPass o google icloud st.syncedEvents
    match p.err with
    | some e =>
      errorOutcome timeStr e { st with syncedEvents := p.entries } p.google p.icloud p.trace
    | none =>
      let cleared : Option String :=
        match st.lastError with
        | none => none
        | some s => if s = "" then some "" else none
      let st' : SyncState :=
        { lastSync := some o.nowIso, lastError := cleared, syncedEvents := p.entries }
      let totals :=
        p.r1.added + p.r2.added + p.r1.deleted + p.r2.deleted + p.r1.errors + p.r2.errors
      ⟨true, st', p.google, p.icloud, p.trace,
        if totals > 0 then ["Calendar Sync"] else []⟩

/-! ## Trace-shape predicates

The stage-ordering claims are about the order of the external mutating
calls one pass issues.  Kinds: `0` = create at iCloud, `1` = delete at
iCloud, `2` = create at Google, `3` = delete at Google. -/

/-- The stage a call belongs to. -/
def actKind : Act → Nat
  | .createB _ => 0
  | .delB _ => 1
  | .createA _ => 2
  | .delA _ => 3

/-- The calls of one stage, in order. -/
def kindFilter (n : Nat) (tr : List Act) : List Act :=
  tr.filter (fun a => actKind a == n)

/-- The stage ordering asserted by the spec: all A→B creates, then all
B→A creates, then all deletes at B, then all deletes at A — a trace has
that shape exactly when it equals its four stage-blocks concatenated in
that order. -/
def claimedStageTrace (tr : List Act) : Bool :=
  tr == kindFilter 0 tr ++ kindFilter 2 tr ++ kindFilter 1 tr ++ kindFilter 3 tr

/-- The stage ordering the code actually implements: all A→B creates,
then all deletes at B, then all B→A creates, then all deletes at A. -/
def actualStageTrace (tr : List Act) : Bool :=
  tr == kindFilter 0 tr ++ kindFilter 1 tr ++ kindFilter 2 tr ++ kindFilter 3 tr

/-! ## Concrete fixtures

Instants live on one abstract timeline; the window `[now-1d, now+90d]`
of the fixtures is `[0, 100]`. -/

/-- A benign environment: no transport failures, window `[0, 100]`. -/
def env0 : Env :=
  { timeMin := 0, timeMax := 100, nowIso := "T"
    saveErr := fun _ => none, insertErr := fun _ => none
    assignId := fun k => "gid-" ++ k }

/-- `save_event` raises `"boom"` for the event with uid `"g2"`. -/
def envFail2 : Env := { env0 with saveErr := fun u => if u = "g2" then some "boom" else none }

/-- `events().insert` raises `"boom"` for the event with key `"u1"`. -/
def envInsFail : Env := { env0 with insertErr := fun k => if k = "u1" then some "boom" else none }

/-- Google assigns the native id `"u"` to every inserted event — in
particular to the one carrying `iCalUID = "u1"`, making the stored
annotation an extension of the assigned id. -/
def envPrefixId : Env := { env0 with assignId := fun _ => "u" }

/-- The C9 scenario event: `{key:"e1", title:"Standup",
start:"2025-01-10T09:00Z", end:"2025-01-10T09:30Z"}`; the two instants
are the abstract timeline points 50 and 51. -/
def gStandup : GEvent :=
  { id := "e1", iCalUID := "", summary := some "Standup", description := none
    start := .dt true 50, end_ := .dt true 51 }

/-- Three pending Google events for the failure-isolation scenario. -/
def gEv1 : GEvent :=
  { id := "g1", iCalUID := "", summary := some "E1", description := none
    start := .dt true 10, end_ := .dt true 11 }

def gEv2 : GEvent := { gEv1 with id := "g2", summary := some "E2" }

def gEv3 : GEvent := { gEv1 with id := "g3", summary := some "E3" }

/-- A Google-native event that carries its usual `iCalUID`
(`id + "@google.com"`, which starts with the id). -/
def gNative : GEvent :=
  { id := "e1", iCalUID := "e1@google.com", summary := some "S", description := none
    start := .dt true 50, end_ := .dt true 51 }

/-- A Google event whose id equals an iCloud uid (used as the surviving
A-side record of a tracked B-side entry). -/
def gU1 : GEvent :=
  { id := "u1", iCalUID := "", summary := some "IC", description := none
    start := .dt true 50, end_ := .dt true 51 }

/-- A Google event written back by a previous pass: `iCalUID` holds the
foreign uid `"remote-uid"`, which does not extend the native id. -/
def gForeign : GEvent :=
  { id := "x1", iCalUID := "remote-uid", summary := some "F", description := none
    start := .dt true 50, end_ := .dt true 51 }

/-- A pending iCloud VEVENT with uid `"u1"` and a naive start. -/
def veU1 : VEvent :=
  { uid := "u1", recurrenceId := none, summary := some "IC1", description := none
    dtstart := .dt false 20, dtend := .dt false 21 }

/-- The iCloud object holding `veU1`, inside both search windows. -/
def objU1 : ICloudObj := { data := .cal [veU1], inNarrow := true, inWide := true }

/-- An iCloud object with uid `"g1"` that only the wide deletion search
returns. -/
def objG1 : ICloudObj :=
  { data := .cal [{ uid := "g1", recurrenceId := none, summary := some "Old"
                    description := none, dtstart := .dt true 50, dtend := .dt true 51 }]
    inNarrow := false, inWide := true }

/-- The iCloud object whose uid `"e1"` already matches `gNative`. -/
def objE1 : ICloudObj :=
  { data := .cal [{ uid := "e1", recurrenceId := none, summary := some "S"
                    description := none, dtstart := .dt true 50, dtend := .dt true 51 }]
    inNarrow := true, inWide := true }

/-- A tracked Google-sourced entry whose start (50) is inside the window. -/
def entG1 : SyncedEntry :=
  { title := some "Old", syncedAt := "x", source := "google"
    start := some (.dt true 50), syncFailed := false, error := none }

/-- A tracked Google-sourced entry whose start (200) is outside the window. -/
def entG2out : SyncedEntry := { entG1 with start := some (.dt true 200) }

/-- A tracked iCloud-sourced entry whose start parses timezone-aware and
lies inside the window. -/
def entU1aware : SyncedEntry :=
  { title := some "IC", syncedAt := "x", source := "icloud"
    start := some (.dt true 50), syncFailed := false, error := none }

/-- A tracked iCloud-sourced entry with a naive in-window start. -/
def entU2naive : SyncedEntry :=
  { title := some "IC2", syncedAt := "x", source := "icloud"
    start := some (.dt false 50), syncFailed := false, error := none }

/-- A tracked entry whose `start` string is unparseable. -/
def entBadStart : SyncedEntry :=
  { title := some "B", syncedAt := "x", source := "google"
    start := some (.bad "not-a-date"), syncFailed := false, error := none }

/-- The empty persisted state. -/
def stEmpty : SyncState := ⟨none, none, []⟩

/-- An empty add-loop accumulator for the Google → iCloud direction. -/
def acc0A : AccA := ⟨[], [], 0, 0, [], [], none⟩

/-! ## Stage abbreviations

Named views of the intermediate loop states of the two direction
functions, used to state and prove their characterizations. -/

/-- The entry values the Google → iCloud add loop can insert for an
event: the dedup record, the success record, or a failure record. -/
def insertedByA (o : Env) (ex : List String) (ev : GEvent) (v : SyncedEntry) : Prop :=
  (v = dedupEntryA o ev ∧ ex.contains ev.id = true) ∨ v = successEntryA o ev ∨
    ∃ m, v = failEntryA o ev m

/-- The accumulator after the Google → iCloud add loop. -/
def stageA (o : Env) (g : List GEvent) (ic : List ICloudObj) (es : Entries) : AccA :=
  addLoopA o (existing_icloud_keys ic) ⟨ic, es, 0, 0, [], [], none⟩ g

/-- The iCloud deletion stage's to-delete list. -/
def todoA (o : Env) (g : List GEvent) (ic : List ICloudObj) (es : Entries) : List String :=
  events_to_delete_A o (g.map (·.id)) (stageA o g ic es).entries

/-- The calendar and accumulator after the iCloud deletion loop. -/
def stageADel (o : Env) (g : List GEvent) (ic : List ICloudObj) (es : Entries) :
    List ICloudObj × DelAccA :=
  delLoopA ⟨(stageA o g ic es).entries, 0, [], []⟩ (stageA o g ic es).icloud
    (todoA o g ic es)

/-- The accumulator after the iCloud → Google add loop. -/
def stageB (o : Env) (g : List GEvent) (ic : List ICloudObj) (es : Entries) : AccB :=
  addLoopB o (existing_google_keys g) ⟨g, es, 0, 0, [], [], none, none⟩ (narrowVEvents ic)

/-- The Google deletion stage's to-delete list. -/
def todoB (o : Env) (g : List GEvent) (ic : List ICloudObj) (es : Entries) : List String :=
  events_to_delete_B o (current_icloud_ids ic) (stageB o g ic es).entries

/-- The accumulator after the Google deletion loop. -/
def stageBDel (o : Env) (g : List GEvent) (ic : List ICloudObj) (es : Entries) : DelAccB :=
  delLoopB ⟨(stageB o g ic es).google, (stageB o g ic es).entries, 0, [], []⟩
    (todoB o g ic es)

/-! ## Association-list lemmas -/

theorem alookup_ainsert_self {α : Type} (m : List (String × α)) (k : String) (v : α) :
    alookup (ainsert m k v) k = some v := by
  induction m with
  | nil => simp [ainsert, alookup]
  | cons p rest ih =>
    by_cases h : p.1 = k <;> simp [ainsert, alookup, h, ih]

theorem alookup_ainsert_ne {α : Type} (m : List (String × α)) (k' k : String) (v : α)
    (h : k' ≠ k) : alookup (ainsert m k' v) k = alookup m k := by
  induction m with
  | nil => simp [ainsert, alookup, h]
  | cons p rest ih =>
    by_cases hp : p.1 = k' <;> by_cases hq : p.1 = k <;>
      simp_all [ainsert, alookup]

theorem alookup_aerase_ne {α : Type} (m : List (String × α)) (k' k : String)
    (h : k' ≠ k) : alookup (aerase m k') k = alookup m k := by
  induction m with
  | nil => simp [aerase, alookup]
  | cons p rest ih =>
    by_cases hp : p.1 = k' <;> by_cases hq : p.1 = k <;>
      simp_all [aerase, alookup]

theorem alookup_eq_none_iff {α : Type} (m : List (String × α)) (k : String) :
    alookup m k = none ↔ k ∉ m.map Prod.fst := by
  induction m with
  | nil => simp [alookup]
  | cons p rest ih =>
    by_cases h : p.1 = k <;> simp_all [alookup, eq_comm]

theorem aerase_of_none {α : Type} (m : List (String × α)) (k : String)
    (h : alookup m k = none) : aerase m k = m := by
  induction m with
  | nil => simp [aerase]
  | cons p rest ih =>
    by_cases hp : p.1 = k
    · simp [alookup, hp] at h
    · simp [alookup, hp] at h
      simp [aerase, hp, ih h]

theorem mem_map_fst_ainsert {α : Type} (m : List (String × α)) (k a : String) (v : α) :
    a ∈ (ainsert m k v).map Prod.fst ↔ a ∈ m.map Prod.fst ∨ a = k := by
  induction m with
  | nil => simp [ainsert]
  | cons p rest ih =>
    by_cases h : p.1 = k
    · simp_all [ainsert]
    · simp_all [ainsert]
      tauto

theorem nodup_ainsert {α : Type} (m : List (String × α)) (k : String) (v : α)
    (h : (m.map Prod.fst).Nodup) : ((ainsert m k v).map Prod.fst).Nodup := by
  induction m with
  | nil => simp [ainsert]
  | cons p rest ih =>
    simp only [List.map_cons, List.nodup_cons] at h
    by_cases hp : p.1 = k
    · simp only [ainsert, hp, if_true, List.map_cons, List.nodup_cons]
      exact ⟨hp ▸ h.1, h.2⟩
    · simp only [ainsert, hp, if_false, List.map_cons, List.nodup_cons]
      refine ⟨fun hmem => ?_, ih h.2⟩
      rcases (mem_map_fst_ainsert rest k p.1 v).mp hmem with hm | hm
      · exact h.1 hm
      · exact hp hm

theorem aerase_sublist {α : Type} (m : List (String × α)) (k : String) :
    List.Sublist (aerase m k) m := by
  induction m with
  | nil => simp [aerase]
  | cons p rest ih =>
    by_cases hp : p.1 = k
    · simp only [aerase, hp, if_true]
      exact List.sublist_cons_self p rest
    · simp only [aerase, hp, if_false]
      exact ih.cons₂ p

theorem nodup_aerase {α : Type} (m : List (String × α)) (k : String)
    (h : (m.map Prod.fst).Nodup) : ((aerase m k).map Prod.fst).Nodup :=
  h.sublist ((aerase_sublist m k).map Prod.fst)

theorem alookup_of_mem_nodup {α : Type} (m : List (String × α)) (k : String) (v : α)
    (h : (m.map Prod.fst).Nodup) (hm : (k, v) ∈ m) : alookup m k = some v := by
  induction m with
  | nil => cases hm
  | cons p rest ih =>
    simp only [List.map_cons, List.nodup_cons] at h
    rcases List.mem_cons.mp hm with rfl | hm'
    · simp [alookup]
    · have hne : p.1 ≠ k := by
        intro hh
        exact h.1 (hh ▸ List.mem_map.mpr ⟨(k, v), hm', rfl⟩)
      simp [alookup, hne, ih h.2 hm']

theorem mem_of_alookup {α : Type} (m : List (String × α)) (k : String) (v : α)
    (h : alookup m k = some v) : (k, v) ∈ m := by
  induction m with
  | nil => simp [alookup] at h
  | cons p rest ih =>
    by_cases hp : p.1 = k
    · simp only [alookup, hp, if_true, Option.some.injEq] at h
      have : p = (k, v) := by
        obtain ⟨p1, p2⟩ := p
        simp only at hp h
        rw [hp, h]
      exact this ▸ List.mem_cons_self p rest
    · simp only [alookup, hp, if_false] at h
      exact List.mem_cons_of_mem _ (ih h)

/-! ## Step and loop lemmas -/

theorem addStepA_entries_cases (o : Env) (ex : List String) (acc : AccA) (ev : GEvent) :
    (addStepA o ex acc ev).entries = acc.entries ∨
    (alookup acc.entries ev.id = none ∧
      ∃ v, (addStepA o ex acc ev).entries = ainsert acc.entries ev.id v) := by
  simp only [addStepA]
  split
  · exact Or.inl rfl
  · split
    · exact Or.inl rfl
    · rename_i h2
      have hnone : alookup acc.entries ev.id = none := by
        simpa [Option.not_isSome_iff_eq_none] using h2
      split
      · exact Or.inr ⟨hnone, _, rfl⟩
      · split
        · split
          · exact Or.inr ⟨hnone, _, rfl⟩
          · exact Or.inr ⟨hnone, _, rfl⟩
        · exact Or.inl rfl

theorem addStepA_lookup_mono (o : Env) (ex : List String) (acc : AccA) (ev : GEvent)
    (k : String) (e : SyncedEntry) (h : alookup acc.entries k = some e) :
    alookup (addStepA o ex acc ev).entries k = some e := by
  rcases addStepA_entries_cases o ex acc ev with hc | ⟨hnone, v, hv⟩
  · rw [hc]; exact h
  · rw [hv]
    have hne : ev.id ≠ k := fun hh => by rw [hh, h] at hnone; cases hnone
    rw [alookup_ainsert_ne _ _ _ _ hne]; exact h

theorem addStepA_nodup (o : Env) (ex : List String) (acc : AccA) (ev : GEvent)
    (h : (acc.entries.map Prod.fst).Nodup) :
    ((addStepA o ex acc ev).entries.map Prod.fst).Nodup := by
  rcases addStepA_entries_cases o ex acc ev with hc | ⟨_, v, hv⟩
  · rw [hc]; exact h
  · rw [hv]; exact nodup_ainsert _ _ _ h

theorem addLoopA_lookup_mono (o : Env) (ex : List String) (evs : List GEvent) :
    ∀ (acc : AccA) (k : String) (e : SyncedEntry),
      alookup acc.entries k = some e →
      alookup (addLoopA o ex acc evs).entries k = some e := by
  induction evs with
  | nil => intro acc k e h; simpa [addLoopA] using h
  | cons ev rest ih =>
    intro acc k e h
    simp only [addLoopA]
    split
    · exact addStepA_lookup_mono o ex acc ev k e h
    · exact ih _ _ _ (addStepA_lookup_mono o ex acc ev k e h)

theorem addLoopA_nodup (o : Env) (ex : List String) (evs : List GEvent) :
    ∀ (acc : AccA), (acc.entries.map Prod.fst).Nodup →
      ((addLoopA o ex acc evs).entries.map Prod.fst).Nodup := by
  induction evs with
  | nil => intro acc h; simpa [addLoopA] using h
  | cons ev rest ih =>
    intro acc h
    simp only [addLoopA]
    split
    · exact addStepA_nodup o ex acc ev h
    · exact ih _ (addStepA_nodup o ex acc ev h)

theorem delScanA_lookup_ne (k' k : String) (h : k' ≠ k) (objs : List ICloudObj) :
    ∀ (acc : DelAccA),
      alookup (delScanA k' acc objs).2.entries k = alookup acc.entries k := by
  induction objs with
  | nil => intro acc; simp [delScanA]
  | cons obj rest ih =>
    intro acc
    simp only [delScanA]
    split
    · rename_i hcond
      split
      · rename_i e he
        rw [ih _]
        exact alookup_aerase_ne _ _ _ h
      · rw [ih _]
    · simp only []
      rcases hs : delScanA k' acc rest with ⟨rest', acc'⟩
      have := ih acc
      rw [hs] at this
      simpa using this

theorem delScanA_nodup (k' : String) (objs : List ICloudObj) :
    ∀ (acc : DelAccA), (acc.entries.map Prod.fst).Nodup →
      ((delScanA k' acc objs).2.entries.map Prod.fst).Nodup := by
  induction objs with
  | nil => intro acc h; simpa [delScanA] using h
  | cons obj rest ih =>
    intro acc h
    simp only [delScanA]
    split
    · split
      · exact ih _ (nodup_aerase _ _ h)
      · exact ih _ h
    · rcases hs : delScanA k' acc rest with ⟨rest', acc'⟩
      have := ih acc h
      rw [hs] at this
      simpa using this

theorem delLoopA_lookup_not_mem (k : String) (todo : List String) (h : k ∉ todo) :
    ∀ (acc : DelAccA) (ic : List ICloudObj),
      alookup (delLoopA acc ic todo).2.entries k = alookup acc.entries k := by
  induction todo with
  | nil => intro acc ic; simp [delLoopA]
  | cons k' ks ih =>
    intro acc ic
    have hne : k' ≠ k := fun hh => h (hh ▸ List.mem_cons_self k' ks)
    have hks : k ∉ ks := fun hh => h (List.mem_cons_of_mem k' hh)
    simp only [delLoopA]
    rcases hs : delScanA k' acc ic with ⟨ic', acc'⟩
    have h1 := delScanA_lookup_ne k' k hne ic acc
    rw [hs] at h1
    simp only []
    rw [ih hks acc' ic', ← h1]

theorem delLoopA_nodup (todo : List String) :
    ∀ (acc : DelAccA) (ic : List ICloudObj), (acc.entries.map Prod.fst).Nodup →
      ((delLoopA acc ic todo).2.entries.map Prod.fst).Nodup := by
  induction todo with
  | nil => intro acc ic h; simpa [delLoopA] using h
  | cons k' ks ih =>
    intro acc ic h
    simp only [delLoopA]
    rcases hs : delScanA k' acc ic with ⟨ic', acc'⟩
    have h1 := delScanA_nodup k' ic acc h
    rw [hs] at h1
    exact ih acc' ic' h1

theorem addStepB_entries_cases (o : Env) (ex : List String) (acc : AccB) (ve : VEvent) :
    (addStepB o ex acc ve).entries = acc.entries ∨
    (alookup acc.entries (veKey ve) = none ∧
      ∃ v, (addStepB o ex acc ve).entries = ainsert acc.entries (veKey ve) v) := by
  simp only [addStepB]
  split
  · exact Or.inl rfl
  · rename_i h2
    have hnone : alookup acc.entries (veKey ve) = none := by
      simpa [Option.not_isSome_iff_eq_none] using h2
    split
    · exact Or.inr ⟨hnone, _, rfl⟩
    · split
      · exact Or.inr ⟨hnone, _, rfl⟩
      · split
        · exact Or.inl rfl
        · exact Or.inr ⟨hnone, _, rfl⟩

theorem addStepB_lookup_mono (o : Env) (ex : List String) (acc : AccB) (ve : VEvent)
    (k : String) (e : SyncedEntry) (h : alookup acc.entries k = some e) :
    alookup (addStepB o ex acc ve).entries k = some e := by
  rcases addStepB_entries_cases o ex acc ve with hc | ⟨hnone, v, hv⟩
  · rw [hc]; exact h
  · rw [hv]
    have hne : veKey ve ≠ k := fun hh => by rw [hh, h] at hnone; cases hnone
    rw [alookup_ainsert_ne _ _ _ _ hne]; exact h

theorem addStepB_nodup (o : Env) (ex : List String) (acc : AccB) (ve : VEvent)
    (h : (acc.entries.map Prod.fst).Nodup) :
    ((addStepB o ex acc ve).entries.map Prod.fst).Nodup := by
  rcases addStepB_entries_cases o ex acc ve with hc | ⟨_, v, hv⟩
  · rw [hc]; exact h
  · rw [hv]; exact nodup_ainsert _ _ _ h

theorem addLoopB_lookup_mono (o : Env) (ex : List String) (ves : List VEvent) :
    ∀ (acc : AccB) (k : String) (e : SyncedEntry),
      alookup acc.entries k = some e →
      alookup (addLoopB o ex acc ves).entries k = some e := by
  induction ves with
  | nil => intro acc k e h; simpa [addLoopB] using h
  | cons ve rest ih =>
    intro acc k e h
    simp only [addLoopB]
    split
    · exact addStepB_lookup_mono o ex acc ve k e h
    · exact ih _ _ _ (addStepB_lookup_mono o ex acc ve k e h)

theorem addLoopB_nodup (o : Env) (ex : List String) (ves : List VEvent) :
    ∀ (acc : AccB), (acc.entries.map Prod.fst).Nodup →
      ((addLoopB o ex acc ves).entries.map Prod.fst).Nodup := by
  induction ves with
  | nil => intro acc h; simpa [addLoopB] using h
  | cons ve rest ih =>
    intro acc h
    simp only [addLoopB]
    split
    · exact addStepB_nodup o ex acc ve h
    · exact ih _ (addStepB_nodup o ex acc ve h)

theorem delStepB_entries_cases (acc : DelAccB) (k' : String) :
    (delStepB acc k').entries = acc.entries ∨
    (delStepB acc k').entries = aerase acc.entries k' := by
  simp only [delStepB]
  split
  · split
    · exact Or.inr rfl
    · exact Or.inl rfl
  · split
    · exact Or.inr rfl
    · exact Or.inl rfl

theorem delStepB_lookup_ne (acc : DelAccB) (k' k : String) (h : k' ≠ k) :
    alookup (delStepB acc k').entries k = alookup acc.entries k := by
  rcases delStepB_entries_cases acc k' with hc | hc <;> rw [hc]
  exact alookup_aerase_ne _ _ _ h

theorem delStepB_nodup (acc : DelAccB) (k' : String)
    (h : (acc.entries.map Prod.fst).Nodup) :
    ((delStepB acc k').entries.map Prod.fst).Nodup := by
  rcases delStepB_entries_cases acc k' with hc | hc <;> rw [hc]
  · exact h
  · exact nodup_aerase _ _ h

theorem delLoopB_lookup_not_mem (k : String) (todo : List String) (h : k ∉ todo) :
    ∀ (acc : DelAccB),
      alookup (delLoopB acc todo).entries k = alookup acc.entries k := by
  induction todo with
  | nil => intro acc; simp [delLoopB]
  | cons k' ks ih =>
    intro acc
    have hne : k' ≠ k := fun hh => h (hh ▸ List.mem_cons_self k' ks)
    have hks : k ∉ ks := fun hh => h (List.mem_cons_of_mem k' hh)
    simp only [delLoopB]
    rw [ih hks _, delStepB_lookup_ne _ _ _ hne]

theorem delLoopB_nodup (todo : List String) :
    ∀ (acc : DelAccB), (acc.entries.map Prod.fst).Nodup →
      ((delLoopB acc todo).entries.map Prod.fst).Nodup := by
  induction todo with
  | nil => intro acc h; simpa [delLoopB] using h
  | cons k' ks ih =>
    intro acc h
    simp only [delLoopB]
    exact ih _ (delStepB_nodup acc k' h)

/-- A key whose (unique) entry is not selected does not appear in the
to-delete list. -/
theorem not_mem_filterMap_keys (p : String × SyncedEntry → Bool) (es : Entries)
    (k : String) (e : SyncedEntry)
    (hnd : (es.map Prod.fst).Nodup) (h : alookup es k = some e)
    (hsel : p (k, e) = false) :
    k ∉ (es.filter p).map Prod.fst := by
  intro hmem
  rcases List.mem_map.mp hmem with ⟨pr, hpair, hk⟩
  rcases List.mem_filter.mp hpair with ⟨hmem', hp⟩
  obtain ⟨k1, v⟩ := pr
  simp only at hk
  subst hk
  have h2 := alookup_of_mem_nodup es k1 v hnd hmem'
  rw [h] at h2
  injection h2 with hev
  rw [← hev] at hp
  rw [hsel] at hp
  exact Bool.noConfusion hp

theorem inWindowStr_absent_or_bad (o : Env) (e : SyncedEntry)
    (h : e.start = none ∨ ∃ s, e.start = some (TimeVal.bad s)) :
    inWindowStr o e = false := by
  rcases h with h | ⟨s, h⟩ <;> simp [inWindowStr, h, fromiso]

theorem inWindowNaive_absent_or_bad (o : Env) (e : SyncedEntry)
    (h : e.start = none ∨ ∃ s, e.start = some (TimeVal.bad s)) :
    inWindowNaive o e = false := by
  rcases h with h | ⟨s, h⟩ <;> simp [inWindowNaive, h, fromiso]

/-- The Google → iCloud direction preserves any tracked entry that its
deletion detection does not select. -/
theorem sync_g2i_preserves (o : Env) (g : List GEvent) (ic : List ICloudObj)
    (es : Entries) (k : String) (e : SyncedEntry)
    (hnd : (es.map Prod.fst).Nodup) (h : alookup es k = some e)
    (hsel : selectedForDeleteA o (g.map (·.id)) (k, e) = false) :
    alookup (sync_google_to_icloud o g ic es).entries k = some e := by
  simp only [sync_google_to_icloud]
  set A := addLoopA o (existing_icloud_keys ic) ⟨ic, es, 0, 0, [], [], none⟩ g with hA
  have hmono : alookup A.entries k = some e :=
    addLoopA_lookup_mono o (existing_icloud_keys ic) g ⟨ic, es, 0, 0, [], [], none⟩ k e h
  rcases ha : A.err with _ | err
  · simp only [ha]
    have hndA : (A.entries.map Prod.fst).Nodup :=
      addLoopA_nodup o (existing_icloud_keys ic) g ⟨ic, es, 0, 0, [], [], none⟩ hnd
    have hnotmem : k ∉ events_to_delete_A o (g.map (·.id)) A.entries :=
      not_mem_filterMap_keys _ _ k e hndA hmono hsel
    rcases hd : delLoopA ⟨A.entries, 0, [], []⟩ A.icloud
        (events_to_delete_A o (g.map (·.id)) A.entries) with ⟨ic', d⟩
    have hpres := delLoopA_lookup_not_mem k
      (events_to_delete_A o (g.map (·.id)) A.entries) hnotmem
      ⟨A.entries, 0, [], []⟩ A.icloud
    rw [hd] at hpres
    simp only [hd]
    rw [hpres]
    exact hmono
  · simp only [ha]
    exact hmono

/-- Nodup keys survive the Google → iCloud direction. -/
theorem sync_g2i_nodup (o : Env) (g : List GEvent) (ic : List ICloudObj)
    (es : Entries) (hnd : (es.map Prod.fst).Nodup) :
    ((sync_google_to_icloud o g ic es).entries.map Prod.fst).Nodup := by
  simp only [sync_google_to_icloud]
  set A := addLoopA o (existing_icloud_keys ic) ⟨ic, es, 0, 0, [], [], none⟩ g with hA
  have hndA : (A.entries.map Prod.fst).Nodup :=
    addLoopA_nodup o (existing_icloud_keys ic) g ⟨ic, es, 0, 0, [], [], none⟩ hnd
  rcases ha : A.err with _ | err
  · simp only [ha]
    rcases hd : delLoopA ⟨A.entries, 0, [], []⟩ A.icloud
        (events_to_delete_A o (g.map (·.id)) A.entries) with ⟨ic', d⟩
    have hprn := delLoopA_nodup (events_to_delete_A o (g.map (·.id)) A.entries)
      ⟨A.entries, 0, [], []⟩ A.icloud hndA
    rw [hd] at hprn
    simpa [hd] using hprn
  · simp only [ha]
    exact hndA

/-- The iCloud → Google direction preserves any tracked entry that its
deletion detection does not select. -/
theorem sync_i2g_preserves (o : Env) (g : List GEvent) (ic : List ICloudObj)
    (es : Entries) (k : String) (e : SyncedEntry)
    (hnd : (es.map Prod.fst).Nodup) (h : alookup es k = some e)
    (hsel : selectedForDeleteB o (current_icloud_ids ic) (k, e) = false) :
    alookup (sync_icloud_to_google o g ic es).entries k = some e := by
  simp only [sync_icloud_to_google]
  set B := addLoopB o (existing_google_keys g) ⟨g, es, 0, 0, [], [], none, none⟩
    (narrowVEvents ic) with hB
  have hmono : alookup B.entries k = some e :=
    addLoopB_lookup_mono o (existing_google_keys g) (narrowVEvents ic)
      ⟨g, es, 0, 0, [], [], none, none⟩ k e h
  rcases ha : B.err with _ | err
  · simp only [ha]
    have hndB : (B.entries.map Prod.fst).Nodup :=
      addLoopB_nodup o (existing_google_keys g) (narrowVEvents ic)
        ⟨g, es, 0, 0, [], [], none, none⟩ hnd
    have hnotmem : k ∉ events_to_delete_B o (current_icloud_ids ic) B.entries :=
      not_mem_filterMap_keys _ _ k e hndB hmono hsel
    have hpres := delLoopB_lookup_not_mem k
      (events_to_delete_B o (current_icloud_ids ic) B.entries) hnotmem
      ⟨B.google, B.entries, 0, [], []⟩
    rw [hpres]
    exact hmono
  · simp only [ha]
    exact hmono

/-! ## Further association-list and membership lemmas -/

theorem alookup_aerase_self {α : Type} (m : List (String × α)) (k : String)
    (h : (m.map Prod.fst).Nodup) : alookup (aerase m k) k = none := by
  induction m with
  | nil => simp [aerase, alookup]
  | cons p rest ih =>
    simp only [List.map_cons, List.nodup_cons] at h
    by_cases hp : p.1 = k
    · simp only [aerase, hp, if_true]
      rw [alookup_eq_none_iff]
      exact hp ▸ h.1
    · simp only [aerase, hp, if_false, alookup, hp, if_false]
      exact ih h.2

theorem alookup_aerase_some {α : Type} (m : List (String × α)) (k' k : String) (v : α)
    (hnd : (m.map Prod.fst).Nodup) (h : alookup (aerase m k') k = some v) :
    alookup m k = some v := by
  by_cases he : k' = k
  · rw [he] at h
    rw [alookup_aerase_self m k hnd] at h
    cases h
  · rw [alookup_aerase_ne m k' k he] at h
    exact h

theorem alookup_aerase_none {α : Type} (m : List (String × α)) (k' k : String)
    (h : alookup m k = none) : alookup (aerase m k') k = none := by
  by_cases he : k' = k
  · subst he
    rw [aerase_of_none m k' h]
    exact h
  · rw [alookup_aerase_ne m k' k he]
    exact h

theorem mem_filter_keys {α : Type} (p : String × α → Bool) (es : List (String × α))
    (k : String) (h : k ∈ (es.filter p).map Prod.fst) :
    ∃ v, (k, v) ∈ es ∧ p (k, v) = true := by
  rcases List.mem_map.mp h with ⟨pr, hpair, hk⟩
  rcases List.mem_filter.mp hpair with ⟨hmem, hp⟩
  obtain ⟨k1, v⟩ := pr
  simp only at hk
  subst hk
  exact ⟨v, hmem, hp⟩

theorem mem_listFlat {α : Type} (ls : List (List α)) (a : α) :
    a ∈ listFlat ls ↔ ∃ l ∈ ls, a ∈ l := by
  induction ls with
  | nil => simp [listFlat]
  | cons l ls ih => simp [listFlat, ih]

theorem mem_narrowVEvents (objs : List ICloudObj) (ve : VEvent) :
    ve ∈ narrowVEvents objs ↔ ∃ obj ∈ objs, obj.inNarrow = true ∧ ve ∈ objVEvents obj := by
  simp only [narrowVEvents, mem_listFlat]
  constructor
  · rintro ⟨l, hl, hv⟩
    rcases List.mem_map.mp hl with ⟨obj, hobj, rfl⟩
    rcases List.mem_filter.mp hobj with ⟨hmem, hn⟩
    exact ⟨obj, hmem, hn, hv⟩
  · rintro ⟨obj, hobj, hn, hv⟩
    exact ⟨objVEvents obj, List.mem_map.mpr ⟨obj, List.mem_filter.mpr ⟨hobj, hn⟩, rfl⟩, hv⟩

theorem mem_current_icloud_ids (objs : List ICloudObj) (ve : VEvent)
    (h : ve ∈ narrowVEvents objs) : veKey ve ∈ current_icloud_ids objs :=
  List.mem_map.mpr ⟨ve, h, rfl⟩

theorem eraseById_subset (l : List GEvent) (k : String) (g : GEvent)
    (h : g ∈ eraseById l k) : g ∈ l := by
  induction l with
  | nil => simp [eraseById] at h
  | cons x rest ih =>
    by_cases hx : x.id = k
    · simp only [eraseById, hx, if_true] at h
      exact List.mem_cons_of_mem x h
    · simp only [eraseById, hx, if_false] at h
      rcases List.mem_cons.mp h with rfl | h'
      · exact List.mem_cons_self _ _
      · exact List.mem_cons_of_mem x (ih h')

theorem mem_eraseById_of_ne (l : List GEvent) (k : String) (g : GEvent)
    (hg : g ∈ l) (hne : g.id ≠ k) : g ∈ eraseById l k := by
  induction l with
  | nil => cases hg
  | cons x rest ih =>
    by_cases hx : x.id = k
    · simp only [eraseById, hx, if_true]
      rcases List.mem_cons.mp hg with rfl | h'
      · exact absurd hx hne
      · exact h'
    · simp only [eraseById, hx, if_false]
      rcases List.mem_cons.mp hg with rfl | h'
      · exact List.mem_cons_self _ _
      · exact List.mem_cons_of_mem x (ih h')

/-! ## Characterization of the Google → iCloud add loop -/

theorem addStepA_entries_char (o : Env) (ex : List String) (acc : AccA) (ev : GEvent)
    (k : String) (v : SyncedEntry)
    (h : alookup (addStepA o ex acc ev).entries k = some v) :
    alookup acc.entries k = some v ∨
      (ev.id = k ∧ originatedFromIcloud ev = false ∧ insertedByA o ex ev v) := by
  by_cases hf : originatedFromIcloud ev = true
  · left
    rw [show (addStepA o ex acc ev) = acc by simp [addStepA, hf]] at h
    exact h
  · have hf' : originatedFromIcloud ev = false := by
      cases hb : originatedFromIcloud ev
      · rfl
      · exact absurd hb hf
    by_cases ht : (alookup acc.entries ev.id).isSome
    · left
      rw [show (addStepA o ex acc ev) = acc by simp [addStepA, hf', ht]] at h
      exact h
    · have htn : alookup acc.entries ev.id = none := by
        simpa [Option.not_isSome_iff_eq_none] using ht
      by_cases hk : ev.id = k
      · subst hk
        by_cases hex : ex.contains ev.id = true
        · have hst : (addStepA o ex acc ev).entries =
              ainsert acc.entries ev.id (dedupEntryA o ev) := by
            simp only [addStepA, hf', Bool.false_eq_true, if_false, ht, hex, if_true]
          rw [hst, alookup_ainsert_self] at h
          right
          refine ⟨rfl, hf', Or.inl ⟨?_, hex⟩⟩
          injection h with hv
          exact hv.symm
        · simp only [addStepA, hf', Bool.false_eq_true, if_false, ht, hex] at h
          rcases h1 : fromiso ev.start with _ | s1 <;> rcases h2 : fromiso ev.end_ with _ | s2 <;>
            simp only [h1, h2] at h
          · left; exact h
          · left; exact h
          · left; exact h
          · rcases h3 : o.saveErr ev.id with _ | msg <;> simp only [h3] at h
            · rw [alookup_ainsert_self] at h
              injection h with hv
              exact Or.inr ⟨rfl, hf', Or.inr (Or.inl hv.symm)⟩
            · rw [alookup_ainsert_self] at h
              injection h with hv
              exact Or.inr ⟨rfl, hf', Or.inr (Or.inr ⟨msg, hv.symm⟩)⟩
      · left
        rcases addStepA_entries_cases o ex acc ev with hc | ⟨_, w, hw⟩
        · rw [hc] at h; exact h
        · rw [hw, alookup_ainsert_ne _ _ _ _ hk] at h; exact h

theorem addLoopA_entries_char (o : Env) (ex : List String) (evs : List GEvent) :
    ∀ (acc : AccA) (k : String) (v : SyncedEntry),
      alookup (addLoopA o ex acc evs).entries k = some v →
      alookup acc.entries k = some v ∨
        ∃ ev ∈ evs, ev.id = k ∧ originatedFromIcloud ev = false ∧ insertedByA o ex ev v := by
  induction evs with
  | nil => intro acc k v h; left; simpa [addLoopA] using h
  | cons ev rest ih =>
    intro acc k v h
    simp only [addLoopA] at h
    split at h
    · rcases addStepA_entries_char o ex acc ev k v h with h' | ⟨hk, hor, hins⟩
      · exact Or.inl h'
      · exact Or.inr ⟨ev, List.mem_cons_self ev rest, hk, hor, hins⟩
    · rcases ih _ _ _ h with h' | ⟨ev', hmem, hk, hor, hins⟩
      · rcases addStepA_entries_char o ex acc ev k v h' with h'' | ⟨hk, hor, hins⟩
        · exact Or.inl h''
        · exact Or.inr ⟨ev, List.mem_cons_self ev rest, hk, hor, hins⟩
      · exact Or.inr ⟨ev', List.mem_cons_of_mem ev hmem, hk, hor, hins⟩

theorem addStepA_icloud_char (o : Env) (ex : List String) (acc : AccA) (ev : GEvent)
    (obj : ICloudObj) (h : obj ∈ (addStepA o ex acc ev).icloud) :
    obj ∈ acc.icloud ∨ obj = createdIcloudObj ev := by
  simp only [addStepA] at h
  split at h
  · exact Or.inl h
  · split at h
    · exact Or.inl h
    · split at h
      · exact Or.inl h
      · split at h
        · split at h
          · simp only at h
            rcases List.mem_append.mp h with h' | h'
            · exact Or.inl h'
            · exact Or.inr (List.mem_singleton.mp h')
          · exact Or.inl h
        · exact Or.inl h

theorem addLoopA_icloud_char (o : Env) (ex : List String) (evs : List GEvent) :
    ∀ (acc : AccA) (obj : ICloudObj), obj ∈ (addLoopA o ex acc evs).icloud →
      obj ∈ acc.icloud ∨ ∃ ev ∈ evs, obj = createdIcloudObj ev := by
  induction evs with
  | nil => intro acc obj h; left; simpa [addLoopA] using h
  | cons ev rest ih =>
    intro acc obj h
    simp only [addLoopA] at h
    split at h
    · rcases addStepA_icloud_char o ex acc ev obj h with h' | h'
      · exact Or.inl h'
      · exact Or.inr ⟨ev, List.mem_cons_self ev rest, h'⟩
    · rcases ih _ _ h with h' | ⟨ev', hmem, hobj⟩
      · rcases addStepA_icloud_char o ex acc ev obj h' with h'' | h''
        · exact Or.inl h''
        · exact Or.inr ⟨ev, List.mem_cons_self ev rest, h''⟩
      · exact Or.inr ⟨ev', List.mem_cons_of_mem ev hmem, hobj⟩

theorem addStepA_covers (o : Env) (ex : List String) (acc : AccA) (ev : GEvent)
    (h1 : originatedFromIcloud ev = false)
    (h2 : (addStepA o ex acc ev).err.isSome = false) :
    (alookup (addStepA o ex acc ev).entries ev.id).isSome := by
  by_cases ht : (alookup acc.entries ev.id).isSome
  · rw [show (addStepA o ex acc ev) = acc by simp [addStepA, h1, ht]]
    exact ht
  · have htn : alookup acc.entries ev.id = none := by
      simpa [Option.not_isSome_iff_eq_none] using ht
    by_cases hex : ex.contains ev.id = true
    · have hst : (addStepA o ex acc ev).entries =
          ainsert acc.entries ev.id (dedupEntryA o ev) := by
        simp only [addStepA, h1, Bool.false_eq_true, if_false, ht, hex, if_true]
      rw [hst, alookup_ainsert_self]
      rfl
    · rcases hs : fromiso ev.start with _ | s1
      · exfalso
        have : (addStepA o ex acc ev).err = some "ValueError: invalid isoformat string" := by
          simp only [addStepA, h1, Bool.false_eq_true, if_false, ht, hex, hs]
        rw [this] at h2
        cases h2
      · rcases he : fromiso ev.end_ with _ | s2
        · exfalso
          have : (addStepA o ex acc ev).err = some "ValueError: invalid isoformat string" := by
            simp only [addStepA, h1, Bool.false_eq_true, if_false, ht, hex, hs, he]
          rw [this] at h2
          cases h2
        · rcases hf : o.saveErr ev.id with _ | msg
          · have hst : (addStepA o ex acc ev).entries =
                ainsert acc.entries ev.id (successEntryA o ev) := by
              simp only [addStepA, h1, Bool.false_eq_true, if_false, ht, hex, hs, he, hf]
            rw [hst, alookup_ainsert_self]
            rfl
          · have hst : (addStepA o ex acc ev).entries =
                ainsert acc.entries ev.id (failEntryA o ev msg) := by
              simp only [addStepA, h1, Bool.false_eq_true, if_false, ht, hex, hs, he, hf]
            rw [hst, alookup_ainsert_self]
            rfl

theorem addLoopA_covers (o : Env) (ex : List String) (evs : List GEvent) :
    ∀ (acc : AccA), (addLoopA o ex acc evs).err = none →
      ∀ ev ∈ evs, originatedFromIcloud ev = false →
        (alookup (addLoopA o ex acc evs).entries ev.id).isSome := by
  induction evs with
  | nil => intro acc _ ev hev; cases hev
  | cons ev0 rest ih =>
    intro acc herr ev hev hor
    simp only [addLoopA] at herr ⊢
    split at herr
    · rename_i hstop
      exfalso
      rw [herr] at hstop
      cases hstop
    · rename_i hgo
      split
      · rename_i hstop2
        exact absurd hstop2 hgo
      · rcases List.mem_cons.mp hev with rfl | hmem
        · have hcov := addStepA_covers o ex acc ev hor (by simpa using hgo)
          rcases Option.isSome_iff_exists.mp hcov with ⟨v, hv⟩
          rw [addLoopA_lookup_mono o ex rest _ ev.id v hv]
          rfl
        · exact ih _ herr ev hmem hor

/-! ## Skip and no-match lemmas -/

theorem addStepA_skip (o : Env) (ex : List String) (acc : AccA) (ev : GEvent)
    (h : originatedFromIcloud ev = true ∨ (alookup acc.entries ev.id).isSome = true) :
    addStepA o ex acc ev = acc := by
  by_cases hf : originatedFromIcloud ev = true
  · simp [addStepA, hf]
  · rcases h with h | h
    · exact absurd h hf
    · simp [addStepA, hf, h]

theorem addLoopA_skip_all (o : Env) (ex : List String) (evs : List GEvent) :
    ∀ (acc : AccA),
      (∀ ev ∈ evs, originatedFromIcloud ev = true ∨ (alookup acc.entries ev.id).isSome = true) →
      addLoopA o ex acc evs = acc := by
  induction evs with
  | nil => intro acc _; simp [addLoopA]
  | cons ev rest ih =>
    intro acc h
    simp only [addLoopA, addStepA_skip o ex acc ev (h ev (List.mem_cons_self ev rest))]
    split
    · rfl
    · exact ih acc (fun e he => h e (List.mem_cons_of_mem ev he))

theorem delScanA_no_match_id (k : String) (objs : List ICloudObj) :
    ∀ (acc : DelAccA),
      (∀ obj ∈ objs, ¬(obj.inWide = true ∧ objHasUid obj k = true)) →
      delScanA k acc objs = (objs, acc) := by
  induction objs with
  | nil => intro acc _; simp [delScanA]
  | cons obj rest ih =>
    intro acc h
    have hobj := h obj (List.mem_cons_self obj rest)
    have hcond : (obj.inWide && objHasUid obj k) = false := by
      cases hw : obj.inWide <;> cases hu : objHasUid obj k <;> simp_all
    simp only [delScanA, hcond, Bool.false_eq_true, if_false]
    rw [ih acc (fun o ho => h o (List.mem_cons_of_mem obj ho))]

theorem delLoopA_no_match_id (todo : List String) :
    ∀ (acc : DelAccA) (ic : List ICloudObj),
      (∀ k ∈ todo, ∀ obj ∈ ic, ¬(obj.inWide = true ∧ objHasUid obj k = true)) →
      delLoopA acc ic todo = (ic, acc) := by
  induction todo with
  | nil => intro acc ic _; simp [delLoopA]
  | cons k ks ih =>
    intro acc ic h
    simp only [delLoopA]
    rw [delScanA_no_match_id k ic acc (h k (List.mem_cons_self k ks))]
    exact ih acc ic (fun k' hk' => h k' (List.mem_cons_of_mem k hk'))

/-! ## Characterization of the deletion loops -/

theorem delScanA_entries_shrink (k' : String) (objs : List ICloudObj) :
    ∀ (acc : DelAccA) (k : String) (v : SyncedEntry),
      (acc.entries.map Prod.fst).Nodup →
      alookup (delScanA k' acc objs).2.entries k = some v →
      alookup acc.entries k = some v := by
  induction objs with
  | nil => intro acc k v _ h; simpa [delScanA] using h
  | cons obj rest ih =>
    intro acc k v hnd h
    simp only [delScanA] at h
    split at h
    · split at h
      · rename_i e he
        refine alookup_aerase_some acc.entries k' k v hnd ?_
        exact ih ⟨aerase acc.entries k', acc.deleted + 1,
          acc.dels ++ [(e.title, e.start)], acc.tr ++ [Act.delB k']⟩ k v
          (nodup_aerase _ _ hnd) h
      · exact ih ⟨acc.entries, acc.deleted + 1, acc.dels, acc.tr ++ [Act.delB k']⟩ k v hnd h
    · rcases hs : delScanA k' acc rest with ⟨rest', acc'⟩
      rw [hs] at h
      simp only at h
      have hrec := ih acc k v hnd
      rw [hs] at hrec
      exact hrec h

theorem delLoopA_entries_shrink (todo : List String) :
    ∀ (acc : DelAccA) (ic : List ICloudObj) (k : String) (v : SyncedEntry),
      (acc.entries.map Prod.fst).Nodup →
      alookup (delLoopA acc ic todo).2.entries k = some v →
      alookup acc.entries k = some v := by
  induction todo with
  | nil => intro acc ic k v _ h; simpa [delLoopA] using h
  | cons k' ks ih =>
    intro acc ic k v hnd h
    simp only [delLoopA] at h
    rcases hs : delScanA k' acc ic with ⟨ic', acc'⟩
    rw [hs] at h
    simp only at h
    have hnd' := delScanA_nodup k' ic acc hnd
    rw [hs] at hnd'
    have h1 := ih acc' ic' k v hnd' h
    have h2 := delScanA_entries_shrink k' ic acc k v hnd
    rw [hs] at h2
    exact h2 h1

theorem delScanA_icloud_shrink (k' : String) (objs : List ICloudObj) :
    ∀ (acc : DelAccA) (obj : ICloudObj),
      obj ∈ (delScanA k' acc objs).1 → obj ∈ objs := by
  induction objs with
  | nil => intro acc obj h; simp [delScanA] at h
  | cons o0 rest ih =>
    intro acc obj h
    simp only [delScanA] at h
    split at h
    · split at h
      · exact List.mem_cons_of_mem o0 (ih _ _ h)
      · exact List.mem_cons_of_mem o0 (ih _ _ h)
    · rcases hs : delScanA k' acc rest with ⟨rest', acc'⟩
      rw [hs] at h
      simp only at h
      rcases List.mem_cons.mp h with rfl | h'
      · exact List.mem_cons_self _ _
      · have := ih acc obj
        rw [hs] at this
        exact List.mem_cons_of_mem o0 (this h')

theorem delLoopA_icloud_shrink (todo : List String) :
    ∀ (acc : DelAccA) (ic : List ICloudObj) (obj : ICloudObj),
      obj ∈ (delLoopA acc ic todo).1 → obj ∈ ic := by
  induction todo with
  | nil => intro acc ic obj h; simpa [delLoopA] using h
  | cons k' ks ih =>
    intro acc ic obj h
    simp only [delLoopA] at h
    rcases hs : delScanA k' acc ic with ⟨ic', acc'⟩
    rw [hs] at h
    simp only at h
    have h1 := ih acc' ic' obj h
    have h2 := delScanA_icloud_shrink k' ic acc obj
    rw [hs] at h2
    exact h2 h1

theorem delScanA_keeps (k' : String) (objs : List ICloudObj) :
    ∀ (acc : DelAccA) (obj : ICloudObj), obj ∈ objs →
      ¬(obj.inWide = true ∧ objHasUid obj k' = true) →
      obj ∈ (delScanA k' acc objs).1 := by
  induction objs with
  | nil => intro acc obj h; cases h
  | cons o0 rest ih =>
    intro acc obj hmem hno
    simp only [delScanA]
    split
    · rename_i hcond
      rcases List.mem_cons.mp hmem with rfl | h'
      · exfalso
        exact hno (by simpa using hcond)
      · split
        · exact ih _ _ h' hno
        · exact ih _ _ h' hno
    · rcases hs : delScanA k' acc rest with ⟨rest', acc'⟩
      simp only
      rcases List.mem_cons.mp hmem with rfl | h'
      · exact List.mem_cons_self _ _
      · have := ih acc obj h' hno
        rw [hs] at this
        exact List.mem_cons_of_mem o0 this

theorem delLoopA_keeps (todo : List String) :
    ∀ (acc : DelAccA) (ic : List ICloudObj) (obj : ICloudObj), obj ∈ ic →
      (∀ k' ∈ todo, ¬(obj.inWide = true ∧ objHasUid obj k' = true)) →
      obj ∈ (delLoopA acc ic todo).1 := by
  induction todo with
  | nil => intro acc ic obj h _; simpa [delLoopA] using h
  | cons k' ks ih =>
    intro acc ic obj hmem hno
    simp only [delLoopA]
    rcases hs : delScanA k' acc ic with ⟨ic', acc'⟩
    have h1 := delScanA_keeps k' ic acc obj hmem (hno k' (List.mem_cons_self k' ks))
    rw [hs] at h1
    exact ih acc' ic' obj h1 (fun x hx => hno x (List.mem_cons_of_mem k' hx))

theorem delScanA_clears (k' : String) (objs : List ICloudObj) :
    ∀ (acc : DelAccA) (obj : ICloudObj), obj ∈ (delScanA k' acc objs).1 →
      ¬(obj.inWide = true ∧ objHasUid obj k' = true) := by
  induction objs with
  | nil => intro acc obj h; simp [delScanA] at h
  | cons o0 rest ih =>
    intro acc obj h
    simp only [delScanA] at h
    split at h
    · split at h
      · exact ih _ _ h
      · exact ih _ _ h
    · rename_i hcond
      rcases hs : delScanA k' acc rest with ⟨rest', acc'⟩
      rw [hs] at h
      simp only at h
      rcases List.mem_cons.mp h with rfl | h'
      · intro hc
        exact hcond (by simp [hc.1, hc.2])
      · have := ih acc obj
        rw [hs] at this
        exact this h'

theorem delLoopA_clears (todo : List String) :
    ∀ (acc : DelAccA) (ic : List ICloudObj) (k : String), k ∈ todo →
      ∀ obj ∈ (delLoopA acc ic todo).1, ¬(obj.inWide = true ∧ objHasUid obj k = true) := by
  induction todo with
  | nil => intro acc ic k h; cases h
  | cons k' ks ih =>
    intro acc ic k hk obj hobj
    simp only [delLoopA] at hobj
    rcases hs : delScanA k' acc ic with ⟨ic', acc'⟩
    rw [hs] at hobj
    simp only at hobj
    rcases List.mem_cons.mp hk with rfl | hk'
    · have hmem := delLoopA_icloud_shrink ks acc' ic' obj hobj
      have := delScanA_clears k ic acc obj
      rw [hs] at this
      exact this hmem
    · exact ih acc' ic' k hk' obj hobj

/-! ## Characterization of the iCloud → Google add loop -/

theorem addStepB_inserted_source (o : Env) (ex : List String) (acc : AccB) (ve : VEvent)
    (k : String) (v : SyncedEntry)
    (h : alookup (addStepB o ex acc ve).entries k = some v) :
    alookup acc.entries k = some v ∨ v.source = "icloud" := by
  by_cases ht : (alookup acc.entries (veKey ve)).isSome
  · rw [show addStepB o ex acc ve = acc by simp [addStepB, ht]] at h
    exact Or.inl h
  · by_cases hk : veKey ve = k
    · subst hk
      by_cases hex : ex.contains (veKey ve) = true
      · have hst : (addStepB o ex acc ve).entries =
            ainsert acc.entries (veKey ve) (dedupEntryB o ve) := by
          simp only [addStepB, ht, Bool.false_eq_true, if_false, hex, if_true]
        rw [hst, alookup_ainsert_self] at h
        injection h with hv
        right
        rw [← hv]
        rfl
      · rcases hf : o.insertErr (veKey ve) with _ | msg
        · have hst : (addStepB o ex acc ve).entries =
              ainsert acc.entries (veKey ve) (successEntryB o ve) := by
            simp only [addStepB, ht, Bool.false_eq_true, if_false, hex, hf]
          rw [hst, alookup_ainsert_self] at h
          injection h with hv
          right
          rw [← hv]
          rfl
        · rcases hstale : acc.eventStart with _ | stale
          · have hst : (addStepB o ex acc ve).entries = acc.entries := by
              simp only [addStepB, ht, Bool.false_eq_true, if_false, hex, hf, hstale]
            rw [hst] at h
            exact Or.inl h
          · have hst : (addStepB o ex acc ve).entries =
                ainsert acc.entries (veKey ve) (failEntryB o ve stale msg) := by
              simp only [addStepB, ht, Bool.false_eq_true, if_false, hex, hf, hstale]
            rw [hst, alookup_ainsert_self] at h
            injection h with hv
            right
            rw [← hv]
            rfl
    · rcases addStepB_entries_cases o ex acc ve with hc | ⟨_, w, hw⟩
      · rw [hc] at h
        exact Or.inl h
      · rw [hw, alookup_ainsert_ne _ _ _ _ hk] at h
        exact Or.inl h

theorem addLoopB_inserted_source (o : Env) (ex : List String) (ves : List VEvent) :
    ∀ (acc : AccB) (k : String) (v : SyncedEntry),
      alookup (addLoopB o ex acc ves).entries k = some v →
      alookup acc.entries k = some v ∨ v.source = "icloud" := by
  induction ves with
  | nil => intro acc k v h; left; simpa [addLoopB] using h
  | cons ve rest ih =>
    intro acc k v h
    simp only [addLoopB] at h
    split at h
    · exact addStepB_inserted_source o ex acc ve k v h
    · rcases ih _ _ _ h with h' | h'
      · exact addStepB_inserted_source o ex acc ve k v h'
      · exact Or.inr h'

theorem addStepB_google_char (o : Env) (ex : List String) (acc : AccB) (ve : VEvent)
    (gev : GEvent) (h : gev ∈ (addStepB o ex acc ve).google) :
    gev ∈ acc.google ∨ gev = createdGEvent o ve (veKey ve) := by
  simp only [addStepB] at h
  split at h
  · exact Or.inl h
  · split at h
    · exact Or.inl h
    · split at h
      · simp only at h
        rcases List.mem_append.mp h with h' | h'
        · exact Or.inl h'
        · exact Or.inr (List.mem_singleton.mp h')
      · split at h
        · exact Or.inl h
        · exact Or.inl h

theorem addLoopB_google_char (o : Env) (ex : List String) (ves : List VEvent) :
    ∀ (acc : AccB) (gev : GEvent), gev ∈ (addLoopB o ex acc ves).google →
      gev ∈ acc.google ∨ ∃ ve ∈ ves, gev = createdGEvent o ve (veKey ve) := by
  induction ves with
  | nil => intro acc gev h; left; simpa [addLoopB] using h
  | cons ve rest ih =>
    intro acc gev h
    simp only [addLoopB] at h
    split at h
    · rcases addStepB_google_char o ex acc ve gev h with h' | h'
      · exact Or.inl h'
      · exact Or.inr ⟨ve, List.mem_cons_self ve rest, h'⟩
    · rcases ih _ _ h with h' | ⟨ve', hmem, hg⟩
      · rcases addStepB_google_char o ex acc ve gev h' with h'' | h''
        · exact Or.inl h''
        · exact Or.inr ⟨ve, List.mem_cons_self ve rest, h''⟩
      · exact Or.inr ⟨ve', List.mem_cons_of_mem ve hmem, hg⟩

theorem addStepB_google_mono (o : Env) (ex : List String) (acc : AccB) (ve : VEvent)
    (gev : GEvent) (h : gev ∈ acc.google) : gev ∈ (addStepB o ex acc ve).google := by
  simp only [addStepB]
  split
  · exact h
  · split
    · exact h
    · split
      · exact List.mem_append.mpr (Or.inl h)
      · split
        · exact h
        · exact h

theorem addLoopB_google_mono (o : Env) (ex : List String) (ves : List VEvent) :
    ∀ (acc : AccB) (gev : GEvent), gev ∈ acc.google →
      gev ∈ (addLoopB o ex acc ves).google := by
  induction ves with
  | nil => intro acc gev h; simpa [addLoopB] using h
  | cons ve rest ih =>
    intro acc gev h
    simp only [addLoopB]
    split
    · exact addStepB_google_mono o ex acc ve gev h
    · exact ih _ _ (addStepB_google_mono o ex acc ve gev h)

theorem addStepB_covers (o : Env) (ex : List String) (acc : AccB) (ve : VEvent)
    (h2 : (addStepB o ex acc ve).err.isSome = false) :
    (alookup (addStepB o ex acc ve).entries (veKey ve)).isSome := by
  by_cases ht : (alookup acc.entries (veKey ve)).isSome
  · rw [show (addStepB o ex acc ve) = acc by simp [addStepB, ht]]
    exact ht
  · by_cases hex : ex.contains (veKey ve) = true
    · have hst : (addStepB o ex acc ve).entries =
          ainsert acc.entries (veKey ve) (dedupEntryB o ve) := by
        simp only [addStepB, ht, Bool.false_eq_true, if_false, hex, if_true]
      rw [hst, alookup_ainsert_self]
      rfl
    · rcases hf : o.insertErr (veKey ve) with _ | msg
      · have hst : (addStepB o ex acc ve).entries =
            ainsert acc.entries (veKey ve) (successEntryB o ve) := by
          simp only [addStepB, ht, Bool.false_eq_true, if_false, hex, hf]
        rw [hst, alookup_ainsert_self]
        rfl
      · rcases hstale : acc.eventStart with _ | stale
        · exfalso
          have : (addStepB o ex acc ve).err = some "NameError: event_start is not defined" := by
            simp only [addStepB, ht, Bool.false_eq_true, if_false, hex, hf, hstale]
          rw [this] at h2
          cases h2
        · have hst : (addStepB o ex acc ve).entries =
              ainsert acc.entries (veKey ve) (failEntryB o ve stale msg) := by
            simp only [addStepB, ht, Bool.false_eq_true, if_false, hex, hf, hstale]
          rw [hst, alookup_ainsert_self]
          rfl

theorem addLoopB_covers (o : Env) (ex : List String) (ves : List VEvent) :
    ∀ (acc : AccB), (addLoopB o ex acc ves).err = none →
      ∀ ve ∈ ves, (alookup (addLoopB o ex acc ves).entries (veKey ve)).isSome := by
  induction ves with
  | nil => intro acc _ ve hve; cases hve
  | cons ve0 rest ih =>
    intro acc herr ve hve
    simp only [addLoopB] at herr ⊢
    split at herr
    · rename_i hstop
      exfalso
      rw [herr] at hstop
      cases hstop
    · rename_i hgo
      split
      · rename_i hstop2
        exact absurd hstop2 hgo
      · rcases List.mem_cons.mp hve with rfl | hmem
        · have hcov := addStepB_covers o ex acc ve (by simpa using hgo)
          rcases Option.isSome_iff_exists.mp hcov with ⟨v, hv⟩
          rw [addLoopB_lookup_mono o ex rest _ (veKey ve) v hv]
          rfl
        · exact ih _ herr ve hmem

theorem addStepB_skip (o : Env) (ex : List String) (acc : AccB) (ve : VEvent)
    (h : (alookup acc.entries (veKey ve)).isSome = true) :
    addStepB o ex acc ve = acc := by
  simp [addStepB, h]

theorem addLoopB_skip_all (o : Env) (ex : List String) (ves : List VEvent) :
    ∀ (acc : AccB),
      (∀ ve ∈ ves, (alookup acc.entries (veKey ve)).isSome = true) →
      addLoopB o ex acc ves = acc := by
  induction ves with
  | nil => intro acc _; simp [addLoopB]
  | cons ve rest ih =>
    intro acc h
    simp only [addLoopB, addStepB_skip o ex acc ve (h ve (List.mem_cons_self ve rest))]
    split
    · rfl
    · exact ih acc (fun e he => h e (List.mem_cons_of_mem ve he))

/-! ## Characterization of the Google deletion loop -/

theorem delStepB_lookup_self (acc : DelAccB) (k : String)
    (hnd : (acc.entries.map Prod.fst).Nodup) :
    alookup (delStepB acc k).entries k = none := by
  simp only [delStepB]
  split
  · split
    · exact alookup_aerase_self _ _ hnd
    · rename_i he
      exact he
  · split
    · exact alookup_aerase_self _ _ hnd
    · rename_i hl
      simpa [Option.not_isSome_iff_eq_none] using hl

theorem delStepB_lookup_none_pres (acc : DelAccB) (k' k : String)
    (h : alookup acc.entries k = none) :
    alookup (delStepB acc k').entries k = none := by
  rcases delStepB_entries_cases acc k' with hc | hc <;> rw [hc]
  · exact h
  · exact alookup_aerase_none _ _ _ h

theorem delLoopB_lookup_none_pres (todo : List String) :
    ∀ (acc : DelAccB) (k : String), alookup acc.entries k = none →
      alookup (delLoopB acc todo).entries k = none := by
  induction todo with
  | nil => intro acc k h; simpa [delLoopB] using h
  | cons k' ks ih =>
    intro acc k h
    simp only [delLoopB]
    exact ih _ _ (delStepB_lookup_none_pres acc k' k h)

theorem delLoopB_erases (todo : List String) :
    ∀ (acc : DelAccB), (acc.entries.map Prod.fst).Nodup →
      ∀ k ∈ todo, alookup (delLoopB acc todo).entries k = none := by
  induction todo with
  | nil => intro acc _ k h; cases h
  | cons k' ks ih =>
    intro acc hnd k hk
    simp only [delLoopB]
    rcases List.mem_cons.mp hk with rfl | hk'
    · exact delLoopB_lookup_none_pres ks _ _ (delStepB_lookup_self acc k hnd)
    · exact ih _ (delStepB_nodup acc k' hnd) k hk'

theorem delStepB_entries_shrink (acc : DelAccB) (k' k : String) (v : SyncedEntry)
    (hnd : (acc.entries.map Prod.fst).Nodup)
    (h : alookup (delStepB acc k').entries k = some v) :
    alookup acc.entries k = some v := by
  rcases delStepB_entries_cases acc k' with hc | hc <;> rw [hc] at h
  · exact h
  · exact alookup_aerase_some _ _ _ _ hnd h

theorem delLoopB_entries_shrink (todo : List String) :
    ∀ (acc : DelAccB) (k : String) (v : SyncedEntry),
      (acc.entries.map Prod.fst).Nodup →
      alookup (delLoopB acc todo).entries k = some v →
      alookup acc.entries k = some v := by
  induction todo with
  | nil => intro acc k v _ h; simpa [delLoopB] using h
  | cons k' ks ih =>
    intro acc k v hnd h
    simp only [delLoopB] at h
    exact delStepB_entries_shrink acc k' k v hnd
      (ih _ _ _ (delStepB_nodup acc k' hnd) h)

theorem delStepB_google_shrink (acc : DelAccB) (k' : String) (gev : GEvent)
    (h : gev ∈ (delStepB acc k').google) : gev ∈ acc.google := by
  simp only [delStepB] at h
  split at h
  · split at h
    · exact eraseById_subset _ _ _ h
    · exact eraseById_subset _ _ _ h
  · split at h
    · exact h
    · exact h

theorem delLoopB_google_shrink (todo : List String) :
    ∀ (acc : DelAccB) (gev : GEvent),
      gev ∈ (delLoopB acc todo).google → gev ∈ acc.google := by
  induction todo with
  | nil => intro acc gev h; simpa [delLoopB] using h
  | cons k' ks ih =>
    intro acc gev h
    simp only [delLoopB] at h
    exact delStepB_google_shrink acc k' gev (ih _ _ h)

theorem delStepB_google_keeps (acc : DelAccB) (k' : String) (gev : GEvent)
    (hg : gev ∈ acc.google) (hne : gev.id ≠ k') : gev ∈ (delStepB acc k').google := by
  simp only [delStepB]
  split
  · split
    · exact mem_eraseById_of_ne _ _ _ hg hne
    · exact mem_eraseById_of_ne _ _ _ hg hne
  · split
    · exact hg
    · exact hg

theorem delLoopB_google_keeps (todo : List String) :
    ∀ (acc : DelAccB) (gev : GEvent), gev ∈ acc.google → gev.id ∉ todo →
      gev ∈ (delLoopB acc todo).google := by
  induction todo with
  | nil => intro acc gev h _; simpa [delLoopB] using h
  | cons k' ks ih =>
    intro acc gev hg hno
    simp only [delLoopB]
    have hne : gev.id ≠ k' := fun hh => hno (hh ▸ List.mem_cons_self k' ks)
    exact ih _ _ (delStepB_google_keeps acc k' gev hg hne)
      (fun hh => hno (List.mem_cons_of_mem k' hh))

/-! ## Trace-shape lemmas -/

theorem addStepA_tr (o : Env) (ex : List String) (acc : AccA) (ev : GEvent) :
    ∃ t, (addStepA o ex acc ev).tr = acc.tr ++ t ∧ ∀ a ∈ t, actKind a = 0 := by
  simp only [addStepA]
  split
  · exact ⟨[], by simp, by simp⟩
  · split
    · exact ⟨[], by simp, by simp⟩
    · split
      · exact ⟨[], by simp, by simp⟩
      · split
        · split
          · exact ⟨[Act.createB ev.id], rfl, by simp [actKind]⟩
          · exact ⟨[Act.createB ev.id], rfl, by simp [actKind]⟩
        · exact ⟨[], by simp, by simp⟩

theorem addLoopA_tr (o : Env) (ex : List String) (evs : List GEvent) :
    ∀ acc : AccA, ∃ t, (addLoopA o ex acc evs).tr = acc.tr ++ t ∧ ∀ a ∈ t, actKind a = 0 := by
  induction evs with
  | nil => intro acc; exact ⟨[], by simp [addLoopA], by simp⟩
  | cons ev rest ih =>
    intro acc
    obtain ⟨t1, ht1, hk1⟩ := addStepA_tr o ex acc ev
    simp only [addLoopA]
    split
    · exact ⟨t1, ht1, hk1⟩
    · obtain ⟨t2, ht2, hk2⟩ := ih (addStepA o ex acc ev)
      refine ⟨t1 ++ t2, ?_, ?_⟩
      · rw [ht2, ht1, List.append_assoc]
      · intro a ha
        rcases List.mem_append.mp ha with ha | ha
        · exact hk1 a ha
        · exact hk2 a ha

theorem delScanA_tr (k : String) (objs : List ICloudObj) :
    ∀ acc : DelAccA, ∃ t, (delScanA k acc objs).2.tr = acc.tr ++ t ∧ ∀ a ∈ t, actKind a = 1 := by
  induction objs with
  | nil => intro acc; exact ⟨[], by simp [delScanA], by simp⟩
  | cons obj rest ih =>
    intro acc
    simp only [delScanA]
    split
    · split
      · rename_i e he
        obtain ⟨t, ht, hk⟩ := ih _
        refine ⟨Act.delB k :: t, ?_, ?_⟩
        · rw [ht]
          simp
        · intro a ha
          rcases List.mem_cons.mp ha with rfl | ha
          · simp [actKind]
          · exact hk a ha
      · obtain ⟨t, ht, hk⟩ := ih _
        refine ⟨Act.delB k :: t, ?_, ?_⟩
        · rw [ht]
          simp
        · intro a ha
          rcases List.mem_cons.mp ha with rfl | ha
          · simp [actKind]
          · exact hk a ha
    · rcases hs : delScanA k acc rest with ⟨rest', acc'⟩
      obtain ⟨t, ht, hk⟩ := ih acc
      rw [hs] at ht
      exact ⟨t, by simpa using ht, hk⟩

theorem delLoopA_tr (todo : List String) :
    ∀ (acc : DelAccA) (ic : List ICloudObj),
      ∃ t, (delLoopA acc ic todo).2.tr = acc.tr ++ t ∧ ∀ a ∈ t, actKind a = 1 := by
  induction todo with
  | nil => intro acc ic; exact ⟨[], by simp [delLoopA], by simp⟩
  | cons k ks ih =>
    intro acc ic
    simp only [delLoopA]
    rcases hs : delScanA k acc ic with ⟨ic', acc'⟩
    obtain ⟨t1, ht1, hk1⟩ := delScanA_tr k ic acc
    rw [hs] at ht1
    obtain ⟨t2, ht2, hk2⟩ := ih acc' ic'
    refine ⟨t1 ++ t2, ?_, ?_⟩
    · simp only []
      rw [ht2]
      simp only at ht1
      rw [ht1, List.append_assoc]
    · intro a ha
      rcases List.mem_append.mp ha with ha | ha
      · exact hk1 a ha
      · exact hk2 a ha

theorem addStepB_tr (o : Env) (ex : List String) (acc : AccB) (ve : VEvent) :
    ∃ t, (addStepB o ex acc ve).tr = acc.tr ++ t ∧ ∀ a ∈ t, actKind a = 2 := by
  simp only [addStepB]
  split
  · exact ⟨[], by simp, by simp⟩
  · split
    · exact ⟨[], by simp, by simp⟩
    · split
      · exact ⟨[Act.createA (veKey ve)], rfl, by simp [actKind]⟩
      · split
        · exact ⟨[Act.createA (veKey ve)], rfl, by simp [actKind]⟩
        · exact ⟨[Act.createA (veKey ve)], rfl, by simp [actKind]⟩

theorem addLoopB_tr (o : Env) (ex : List String) (ves : List VEvent) :
    ∀ acc : AccB, ∃ t, (addLoopB o ex acc ves).tr = acc.tr ++ t ∧ ∀ a ∈ t, actKind a = 2 := by
  induction ves with
  | nil => intro acc; exact ⟨[], by simp [addLoopB], by simp⟩
  | cons ve rest ih =>
    intro acc
    obtain ⟨t1, ht1, hk1⟩ := addStepB_tr o ex acc ve
    simp only [addLoopB]
    split
    · exact ⟨t1, ht1, hk1⟩
    · obtain ⟨t2, ht2, hk2⟩ := ih (addStepB o ex acc ve)
      refine ⟨t1 ++ t2, ?_, ?_⟩
      · rw [ht2, ht1, List.append_assoc]
      · intro a ha
        rcases List.mem_append.mp ha with ha | ha
        · exact hk1 a ha
        · exact hk2 a ha

theorem delStepB_tr (acc : DelAccB) (k : String) :
    ∃ t, (delStepB acc k).tr = acc.tr ++ t ∧ ∀ a ∈ t, actKind a = 3 := by
  simp only [delStepB]
  split
  · split
    · exact ⟨[Act.delA k], rfl, by simp [actKind]⟩
    · exact ⟨[Act.delA k], rfl, by simp [actKind]⟩
  · split
    · exact ⟨[Act.delA k], rfl, by simp [actKind]⟩
    · exact ⟨[Act.delA k], rfl, by simp [actKind]⟩

theorem delLoopB_tr (todo : List String) :
    ∀ acc : DelAccB, ∃ t, (delLoopB acc todo).tr = acc.tr ++ t ∧ ∀ a ∈ t, actKind a = 3 := by
  induction todo with
  | nil => intro acc; exact ⟨[], by simp [delLoopB], by simp⟩
  | cons k ks ih =>
    intro acc
    simp only [delLoopB]
    obtain ⟨t1, ht1, hk1⟩ := delStepB_tr acc k
    obtain ⟨t2, ht2, hk2⟩ := ih (delStepB acc k)
    refine ⟨t1 ++ t2, ?_, ?_⟩
    · rw [ht2, ht1, List.append_assoc]
    · intro a ha
      rcases List.mem_append.mp ha with ha | ha
      · exact hk1 a ha
      · exact hk2 a ha

/-- The Google → iCloud direction's trace is its creates followed by its
deletes. -/
theorem sync_g2i_tr (o : Env) (g : List GEvent) (ic : List ICloudObj) (es : Entries) :
    ∃ t0 t1, (sync_google_to_icloud o g ic es).trace = t0 ++ t1 ∧
      (∀ a ∈ t0, actKind a = 0) ∧ (∀ a ∈ t1, actKind a = 1) := by
  simp only [sync_google_to_icloud]
  set A := addLoopA o (existing_icloud_keys ic) ⟨ic, es, 0, 0, [], [], none⟩ g with hA
  obtain ⟨t0, ht0, hk0⟩ := addLoopA_tr o (existing_icloud_keys ic) g ⟨ic, es, 0, 0, [], [], none⟩
  rw [← hA] at ht0
  simp only at ht0
  rcases ha : A.err with _ | err
  · simp only [ha]
    rcases hd : delLoopA ⟨A.entries, 0, [], []⟩ A.icloud
        (events_to_delete_A o (g.map (·.id)) A.entries) with ⟨ic', d⟩
    obtain ⟨t1, ht1, hk1⟩ := delLoopA_tr (events_to_delete_A o (g.map (·.id)) A.entries)
      ⟨A.entries, 0, [], []⟩ A.icloud
    rw [hd] at ht1
    simp only at ht1
    refine ⟨t0, t1, ?_, hk0, hk1⟩
    simp only [hd]
    rw [ht0, ht1]
    simp
  · simp only [ha]
    exact ⟨t0, [], by simpa using ht0, hk0, by simp⟩

/-- The iCloud → Google direction's trace is its creates followed by its
deletes. -/
theorem sync_i2g_tr (o : Env) (g : List GEvent) (ic : List ICloudObj) (es : Entries) :
    ∃ t2 t3, (sync_icloud_to_google o g ic es).trace = t2 ++ t3 ∧
      (∀ a ∈ t2, actKind a = 2) ∧ (∀ a ∈ t3, actKind a = 3) := by
  simp only [sync_icloud_to_google]
  set B := addLoopB o (existing_google_keys g) ⟨g, es, 0, 0, [], [], none, none⟩
    (narrowVEvents ic) with hB
  obtain ⟨t2, ht2, hk2⟩ := addLoopB_tr o (existing_google_keys g) (narrowVEvents ic)
    ⟨g, es, 0, 0, [], [], none, none⟩
  rw [← hB] at ht2
  simp only at ht2
  rcases ha : B.err with _ | err
  · simp only [ha]
    obtain ⟨t3, ht3, hk3⟩ := delLoopB_tr (events_to_delete_B o (current_icloud_ids ic) B.entries)
      ⟨B.google, B.entries, 0, [], []⟩
    simp only at ht3
    refine ⟨t2, t3, ?_, hk2, hk3⟩
    rw [ht2, ht3]
    simp
  · simp only [ha]
    exact ⟨t2, [], by simpa using ht2, hk2, by simp⟩

/-- A trace built from four stage blocks in the order create-at-B,
delete-at-B, create-at-A, delete-at-A has the per-direction stage
shape. -/
theorem actualStageTrace_of_blocks (t0 t1 t2 t3 : List Act)
    (h0 : ∀ a ∈ t0, actKind a = 0) (h1 : ∀ a ∈ t1, actKind a = 1)
    (h2 : ∀ a ∈ t2, actKind a = 2) (h3 : ∀ a ∈ t3, actKind a = 3) :
    actualStageTrace (t0 ++ t1 ++ t2 ++ t3) = true := by
  have ff : ∀ (n : Nat) (t : List Act), (∀ a ∈ t, actKind a = n) →
      kindFilter n t = t := by
    intro n t ht
    exact List.filter_eq_self.mpr (fun a ha => by simp [ht a ha])
  have fn : ∀ (n m : Nat) (t : List Act), n ≠ m → (∀ a ∈ t, actKind a = m) →
      kindFilter n t = [] := by
    intro n m t hnm ht
    refine List.filter_eq_nil_iff.mpr ?_
    intro a ha
    rw [ht a ha]
    simpa using Ne.symm hnm
  have expand : ∀ n : Nat, kindFilter n (t0 ++ t1 ++ t2 ++ t3) =
      kindFilter n t0 ++ kindFilter n t1 ++ kindFilter n t2 ++ kindFilter n t3 := by
    intro n
    simp [kindFilter, List.filter_append]
  simp only [actualStageTrace, expand,
    ff 0 t0 h0, ff 1 t1 h1, ff 2 t2 h2, ff 3 t3 h3,
    fn 0 1 t1 (by decide) h1, fn 0 2 t2 (by decide) h2, fn 0 3 t3 (by decide) h3,
    fn 1 0 t0 (by decide) h0, fn 1 2 t2 (by decide) h2, fn 1 3 t3 (by decide) h3,
    fn 2 0 t0 (by decide) h0, fn 2 1 t1 (by decide) h1, fn 2 3 t3 (by decide) h3,
    fn 3 0 t0 (by decide) h0, fn 3 1 t1 (by decide) h1, fn 3 2 t2 (by decide) h2]
  simp

/-! ## Direction-level equations and selection lemmas -/

theorem scontains_iff (l : List String) (a : String) : l.contains a = true ↔ a ∈ l := by
  induction l with
  | nil => simp
  | cons x xs ih => simp [ih]

theorem charsStart_of_longer (l1 l2 : List Char) (h : l2.length < l1.length) :
    charsStart l1 l2 = false := by
  induction l1 generalizing l2 with
  | nil => simp at h
  | cons c cs ih =>
    cases l2 with
    | nil => simp [charsStart]
    | cons d ds =>
      simp only [List.length_cons, Nat.add_lt_add_iff_right] at h
      simp [charsStart, ih ds h]

theorem addStepA_icloud_mono (o : Env) (ex : List String) (acc : AccA) (ev : GEvent)
    (obj : ICloudObj) (h : obj ∈ acc.icloud) : obj ∈ (addStepA o ex acc ev).icloud := by
  simp only [addStepA]
  split
  · exact h
  · split
    · exact h
    · split
      · exact h
      · split
        · split
          · exact List.mem_append.mpr (Or.inl h)
          · exact h
        · exact h

theorem addLoopA_icloud_mono (o : Env) (ex : List String) (evs : List GEvent) :
    ∀ (acc : AccA) (obj : ICloudObj), obj ∈ acc.icloud →
      obj ∈ (addLoopA o ex acc evs).icloud := by
  induction evs with
  | nil => intro acc obj h; simpa [addLoopA] using h
  | cons ev rest ih =>
    intro acc obj h
    simp only [addLoopA]
    split
    · exact addStepA_icloud_mono o ex acc ev obj h
    · exact ih _ _ (addStepA_icloud_mono o ex acc ev obj h)

theorem mem_existing_icloud_keys (ic : List ICloudObj) (x : String)
    (h : x ∈ existing_icloud_keys ic) :
    ∃ obj ∈ ic, obj.inNarrow = true ∧ ∃ ve ∈ objVEvents obj, veKey ve = x := by
  simp only [existing_icloud_keys, mem_listFlat] at h
  rcases h with ⟨l, hl, hx⟩
  rcases List.mem_map.mp hl with ⟨obj, hobj, rfl⟩
  rcases List.mem_filter.mp hobj with ⟨hmem, hn⟩
  rcases List.mem_map.mp hx with ⟨ve, hve, hk⟩
  exact ⟨obj, hmem, hn, ve, hve, hk⟩

theorem mem_events_to_delete_A_elim (o : Env) (ids : List String) (es : Entries)
    (k : String) (hnd : (es.map Prod.fst).Nodup) (h : k ∈ events_to_delete_A o ids es) :
    ∃ e, alookup es k = some e ∧ e.source = "google" ∧ inWindowStr o e = true ∧
      ids.contains k = false := by
  obtain ⟨v, hmem, hp⟩ := mem_filter_keys _ es k h
  refine ⟨v, alookup_of_mem_nodup es k v hnd hmem, ?_⟩
  simp only [selectedForDeleteA, Bool.and_eq_true, Bool.not_eq_true'] at hp
  obtain ⟨⟨h1, h2⟩, h3⟩ := hp
  exact ⟨by simpa using h1, h2, h3⟩

theorem mem_events_to_delete_B_elim (o : Env) (ids : List String) (es : Entries)
    (k : String) (hnd : (es.map Prod.fst).Nodup) (h : k ∈ events_to_delete_B o ids es) :
    ∃ e, alookup es k = some e ∧ e.source = "icloud" ∧ inWindowNaive o e = true ∧
      ids.contains k = false := by
  obtain ⟨v, hmem, hp⟩ := mem_filter_keys _ es k h
  refine ⟨v, alookup_of_mem_nodup es k v hnd hmem, ?_⟩
  simp only [selectedForDeleteB, Bool.and_eq_true, Bool.not_eq_true'] at hp
  obtain ⟨⟨h1, h2⟩, h3⟩ := hp
  exact ⟨by simpa using h1, h2, h3⟩

theorem mem_events_to_delete_A_intro (o : Env) (ids : List String) (es : Entries)
    (k : String) (e : SyncedEntry) (hmem : (k, e) ∈ es)
    (hp : selectedForDeleteA o ids (k, e) = true) :
    k ∈ events_to_delete_A o ids es :=
  List.mem_map.mpr ⟨(k, e), List.mem_filter.mpr ⟨hmem, hp⟩, rfl⟩

theorem mem_events_to_delete_B_intro (o : Env) (ids : List String) (es : Entries)
    (k : String) (e : SyncedEntry) (hmem : (k, e) ∈ es)
    (hp : selectedForDeleteB o ids (k, e) = true) :
    k ∈ events_to_delete_B o ids es :=
  List.mem_map.mpr ⟨(k, e), List.mem_filter.mpr ⟨hmem, hp⟩, rfl⟩

/-- When the Google → iCloud add loop does not raise, the direction's
output is assembled from the two stage views. -/
theorem sync_g2i_eq (o : Env) (g : List GEvent) (ic : List ICloudObj) (es : Entries)
    (h : (stageA o g ic es).err = none) :
    sync_google_to_icloud o g ic es =
      ⟨none, g, (stageADel o g ic es).1, (stageADel o g ic es).2.entries,
        ⟨(stageA o g ic es).synced, (stageADel o g ic es).2.deleted,
          (stageA o g ic es).errs, (stageA o g ic es).adds, (stageADel o g ic es).2.dels⟩,
        (stageA o g ic es).tr ++ (stageADel o g ic es).2.tr⟩ := by
  have h' : (addLoopA o (existing_icloud_keys ic) ⟨ic, es, 0, 0, [], [], none⟩ g).err = none := h
  simp only [sync_google_to_icloud, h']
  rcases hd : delLoopA ⟨(addLoopA o (existing_icloud_keys ic) ⟨ic, es, 0, 0, [], [], none⟩
      g).entries, 0, [], []⟩
      (addLoopA o (existing_icloud_keys ic) ⟨ic, es, 0, 0, [], [], none⟩ g).icloud
      (events_to_delete_A o (g.map (·.id))
        (addLoopA o (existing_icloud_keys ic) ⟨ic, es, 0, 0, [], [], none⟩ g).entries)
    with ⟨ic', d⟩
  have hd' : stageADel o g ic es = (ic', d) := hd
  simp only [hd, hd', stageA]

theorem sync_g2i_err_none (o : Env) (g : List GEvent) (ic : List ICloudObj) (es : Entries)
    (h : (sync_google_to_icloud o g ic es).err = none) : (stageA o g ic es).err = none := by
  rcases hs : (stageA o g ic es).err with _ | e
  · rfl
  · exfalso
    have hs' : (addLoopA o (existing_icloud_keys ic) ⟨ic, es, 0, 0, [], [], none⟩ g).err =
        some e := hs
    simp only [sync_google_to_icloud, hs'] at h
    cases h

/-- When the iCloud → Google add loop does not raise, the direction's
output is assembled from the two stage views. -/
theorem sync_i2g_eq (o : Env) (g : List GEvent) (ic : List ICloudObj) (es : Entries)
    (h : (stageB o g ic es).err = none) :
    sync_icloud_to_google o g ic es =
      ⟨none, (stageBDel o g ic es).google, ic, (stageBDel o g ic es).entries,
        ⟨(stageB o g ic es).synced, (stageBDel o g ic es).deleted,
          (stageB o g ic es).errs, (stageB o g ic es).adds, (stageBDel o g ic es).dels⟩,
        (stageB o g ic es).tr ++ (stageBDel o g ic es).tr⟩ := by
  have h' : (addLoopB o (existing_google_keys g) ⟨g, es, 0, 0, [], [], none, none⟩
      (narrowVEvents ic)).err = none := h
  simp only [sync_icloud_to_google, h', stageBDel, stageB, todoB]

theorem sync_i2g_err_none (o : Env) (g : List GEvent) (ic : List ICloudObj) (es : Entries)
    (h : (sync_icloud_to_google o g ic es).err = none) : (stageB o g ic es).err = none := by
  rcases hs : (stageB o g ic es).err with _ | e
  · rfl
  · exfalso
    have hs' : (addLoopB o (existing_google_keys g) ⟨g, es, 0, 0, [], [], none, none⟩
        (narrowVEvents ic)).err = some e := hs
    simp only [sync_icloud_to_google, hs'] at h
    cases h

theorem syncPass_err_split (o : Env) (g : List GEvent) (ic : List ICloudObj) (es : Entries)
    (h : (syncPass o g ic es).err = none) :
    (sync_google_to_icloud o g ic es).err = none ∧
    (sync_icloud_to_google o (sync_google_to_icloud o g ic es).google
        (sync_google_to_icloud o g ic es).icloud
        (sync_google_to_icloud o g ic es).entries).err = none ∧
    (syncPass o g ic es).google = (sync_icloud_to_google o
        (sync_google_to_icloud o g ic es).google (sync_google_to_icloud o g ic es).icloud
        (sync_google_to_icloud o g ic es).entries).google ∧
    (syncPass o g ic es).icloud = (sync_icloud_to_google o
        (sync_google_to_icloud o g ic es).google (sync_google_to_icloud o g ic es).icloud
        (sync_google_to_icloud o g ic es).entries).icloud ∧
    (syncPass o g ic es).entries = (sync_icloud_to_google o
        (sync_google_to_icloud o g ic es).google (sync_google_to_icloud o g ic es).icloud
        (sync_google_to_icloud o g ic es).entries).entries := by
  simp only [syncPass] at h ⊢
  rcases hd : (sync_google_to_icloud o g ic es).err with _ | e
  · simp only [hd] at h ⊢
    simpa using h
  · simp only [hd] at h
    cases h

/-- A Google → iCloud direction in which every event is skipped and every
selected deletion finds no match changes nothing. -/
theorem sync_g2i_noop (o : Env) (g : List GEvent) (ic : List ICloudObj) (es : Entries)
    (hskip : ∀ ev ∈ g, originatedFromIcloud ev = true ∨ (alookup es ev.id).isSome = true)
    (hnomatch : ∀ k ∈ events_to_delete_A o (g.map (·.id)) es,
        ∀ obj ∈ ic, ¬(obj.inWide = true ∧ objHasUid obj k = true)) :
    sync_google_to_icloud o g ic es = ⟨none, g, ic, es, ⟨0, 0, 0, [], []⟩, []⟩ := by
  have hA : addLoopA o (existing_icloud_keys ic) ⟨ic, es, 0, 0, [], [], none⟩ g =
      ⟨ic, es, 0, 0, [], [], none⟩ :=
    addLoopA_skip_all o _ g _ hskip
  simp only [sync_google_to_icloud, hA]
  rw [delLoopA_no_match_id _ _ _ hnomatch]
  rfl

/-- An iCloud → Google direction in which every scanned VEVENT is tracked
and nothing is selected for deletion changes nothing. -/
theorem sync_i2g_noop (o : Env) (g : List GEvent) (ic : List ICloudObj) (es : Entries)
    (hskip : ∀ ve ∈ narrowVEvents ic, (alookup es (veKey ve)).isSome = true)
    (hempty : events_to_delete_B o (current_icloud_ids ic) es = []) :
    sync_icloud_to_google o g ic es = ⟨none, g, ic, es, ⟨0, 0, 0, [], []⟩, []⟩ := by
  have hB : addLoopB o (existing_google_keys g) ⟨g, es, 0, 0, [], [], none, none⟩
      (narrowVEvents ic) = ⟨g, es, 0, 0, [], [], none, none⟩ :=
    addLoopB_skip_all o _ (narrowVEvents ic) _ hskip
  simp only [sync_icloud_to_google, hB, hempty]
  simp [delLoopB]

/-! ## The state left by one successful pass

Under sanity conditions on the external snapshots (unique keys in the
persisted dict, single-VEVENT CalDAV objects, non-recurring scanned
uids, non-empty ids, Google-assigned ids that the preserved annotation
does not extend, and separated id spaces), one successful pass leaves a
configuration in which the next pass has nothing to do. -/

theorem pass1_establishes (o : Env) (g : List GEvent) (ic : List ICloudObj) (es : Entries)
    (hnd : (es.map Prod.fst).Nodup)
    (H1 : ∀ obj ∈ ic, obj.data = ICalData.bad ∨ ∃ ve, obj.data = ICalData.cal [ve])
    (H3 : ∀ ve ∈ narrowVEvents ic, ve.recurrenceId = none ∧ ¬ ve.uid = "")
    (H4 : ∀ k, strStartsWith k (o.assignId k) = false)
    (Hgid : ∀ ev ∈ g, ¬ ev.id = "")
    (H8 : ∀ k e, alookup es k = some e → e.source = "icloud" → k ∉ g.map (·.id))
    (Hok : (syncPass o g ic es).err = none) :
    (∀ ev ∈ (syncPass o g ic es).google,
        originatedFromIcloud ev = true ∨
          (alookup (syncPass o g ic es).entries ev.id).isSome = true) ∧
    (∀ k ∈ events_to_delete_A o ((syncPass o g ic es).google.map (·.id))
        (syncPass o g ic es).entries,
      ∀ obj ∈ (syncPass o g ic es).icloud,
        ¬(obj.inWide = true ∧ objHasUid obj k = true)) ∧
    (∀ ve ∈ narrowVEvents (syncPass o g ic es).icloud,
        (alookup (syncPass o g ic es).entries (veKey ve)).isSome = true) ∧
    events_to_delete_B o (current_icloud_ids (syncPass o g ic es).icloud)
      (syncPass o g ic es).entries = [] := by
  obtain ⟨hd1, hd2, hPg, hPic, hPes⟩ := syncPass_err_split o g ic es Hok
  have hAerr : (stageA o g ic es).err = none := sync_g2i_err_none o g ic es hd1
  have heq1 := sync_g2i_eq o g ic es hAerr
  set ic₁ := (stageADel o g ic es).1 with hic₁
  set es₁ := (stageADel o g ic es).2.entries with hes₁
  rw [heq1] at hd2 hPg hPic hPes
  simp only at hd2 hPg hPic hPes
  have hBerr : (stageB o g ic₁ es₁).err = none := sync_i2g_err_none o g ic₁ es₁ hd2
  have heq2 := sync_i2g_eq o g ic₁ es₁ hBerr
  rw [heq2] at hPg hPic hPes
  simp only at hPg hPic hPes
  -- Nodup ladder
  have ndA : ((stageA o g ic es).entries.map Prod.fst).Nodup :=
    addLoopA_nodup o (existing_icloud_keys ic) g ⟨ic, es, 0, 0, [], [], none⟩ hnd
  have nd₁ : (es₁.map Prod.fst).Nodup := by
    have := delLoopA_nodup (todoA o g ic es) ⟨(stageA o g ic es).entries, 0, [], []⟩
      (stageA o g ic es).icloud ndA
    exact this
  have ndB : ((stageB o g ic₁ es₁).entries.map Prod.fst).Nodup :=
    addLoopB_nodup o (existing_google_keys g) (narrowVEvents ic₁)
      ⟨g, es₁, 0, 0, [], [], none, none⟩ nd₁
  have ndE : ((stageBDel o g ic₁ es₁).entries.map Prod.fst).Nodup :=
    delLoopB_nodup (todoB o g ic₁ es₁)
      ⟨(stageB o g ic₁ es₁).google, (stageB o g ic₁ es₁).entries, 0, [], []⟩ ndB
  -- Transport lemmas between the stage states
  have shrinkE : ∀ k v, alookup (stageBDel o g ic₁ es₁).entries k = some v →
      alookup (stageB o g ic₁ es₁).entries k = some v := by
    intro k v hkv
    exact delLoopB_entries_shrink (todoB o g ic₁ es₁)
      ⟨(stageB o g ic₁ es₁).google, (stageB o g ic₁ es₁).entries, 0, [], []⟩ k v ndB hkv
  have shrinkAD : ∀ k v, alookup es₁ k = some v →
      alookup (stageA o g ic es).entries k = some v := by
    intro k v hkv
    exact delLoopA_entries_shrink (todoA o g ic es)
      ⟨(stageA o g ic es).entries, 0, [], []⟩ (stageA o g ic es).icloud k v ndA hkv
  have charB : ∀ k v, alookup (stageB o g ic₁ es₁).entries k = some v →
      alookup es₁ k = some v ∨ v.source = "icloud" :=
    fun k v hkv => addLoopB_inserted_source o (existing_google_keys g) (narrowVEvents ic₁)
      ⟨g, es₁, 0, 0, [], [], none, none⟩ k v hkv
  -- uids of surviving narrow VEVENTs are their keys and are non-empty
  have hveShape : ∀ ve ∈ narrowVEvents ic₁, veKey ve ≠ "" := by
    intro ve hve
    rcases (mem_narrowVEvents ic₁ ve).mp hve with ⟨obj, hobj, hnarrow, hvemem⟩
    have hobjA : obj ∈ (stageA o g ic es).icloud := delLoopA_icloud_shrink (todoA o g ic es)
      ⟨(stageA o g ic es).entries, 0, [], []⟩ (stageA o g ic es).icloud obj hobj
    rcases addLoopA_icloud_char o (existing_icloud_keys ic) g
        ⟨ic, es, 0, 0, [], [], none⟩ obj hobjA with hin | ⟨ev', hev', hcreated⟩
    · have : ve ∈ narrowVEvents ic := (mem_narrowVEvents ic ve).mpr ⟨obj, hin, hnarrow, hvemem⟩
      have h3 := H3 ve this
      simp [veKey, h3.1]
      exact h3.2
    · rw [hcreated] at hvemem
      simp only [createdIcloudObj, objVEvents, List.mem_singleton] at hvemem
      rw [hvemem]
      simp [veKey]
      exact Hgid ev' hev'
  -- F3: every surviving scanned VEVENT is tracked after the pass
  have F3 : ∀ ve ∈ narrowVEvents ic₁,
      (alookup (stageBDel o g ic₁ es₁).entries (veKey ve)).isSome = true := by
    intro ve hve
    have hcov := addLoopB_covers o (existing_google_keys g) (narrowVEvents ic₁)
      ⟨g, es₁, 0, 0, [], [], none, none⟩ hBerr ve hve
    obtain ⟨v, hv⟩ := Option.isSome_iff_exists.mp hcov
    have hids : veKey ve ∈ current_icloud_ids ic₁ := mem_current_icloud_ids _ _ hve
    have hnot : veKey ve ∉ todoB o g ic₁ es₁ := by
      intro hmem
      obtain ⟨e', _, _, _, hcont⟩ := mem_events_to_delete_B_elim o _ _ _ ndB hmem
      rw [(scontains_iff _ _).mpr hids] at hcont
      cases hcont
    have hpres := delLoopB_lookup_not_mem (veKey ve) (todoB o g ic₁ es₁) hnot
      ⟨(stageB o g ic₁ es₁).google, (stageB o g ic₁ es₁).entries, 0, [], []⟩
    have hv' : alookup (stageB o g ic₁ es₁).entries (veKey ve) = some v := hv
    show (alookup (stageBDel o g ic₁ es₁).entries (veKey ve)).isSome = true
    simp only [stageBDel]
    rw [hpres]
    show (alookup (stageB o g ic₁ es₁).entries (veKey ve)).isSome = true
    rw [hv']
    rfl
  -- F4: nothing in the final entries is selected for Google-side deletion
  have F4 : events_to_delete_B o (current_icloud_ids ic₁)
      (stageBDel o g ic₁ es₁).entries = [] := by
    simp only [events_to_delete_B]
    rw [List.map_eq_nil_iff]
    rw [List.filter_eq_nil_iff]
    rintro ⟨k, e⟩ hmem hp
    have hlook : alookup (stageBDel o g ic₁ es₁).entries k = some e :=
      alookup_of_mem_nodup _ k e ndE hmem
    have hB := shrinkE k e hlook
    have hmemB : (k, e) ∈ (stageB o g ic₁ es₁).entries := mem_of_alookup _ k e hB
    have hk : k ∈ todoB o g ic₁ es₁ :=
      mem_events_to_delete_B_intro o (current_icloud_ids ic₁) _ k e hmemB (by simpa using hp)
    have herased := delLoopB_erases (todoB o g ic₁ es₁)
      ⟨(stageB o g ic₁ es₁).google, (stageB o g ic₁ es₁).entries, 0, [], []⟩ ndB k hk
    have : alookup (stageBDel o g ic₁ es₁).entries k = none := herased
    rw [hlook] at this
    cases this
  -- F1: every surviving Google event is foreign or tracked
  have F1 : ∀ ev ∈ (stageBDel o g ic₁ es₁).google,
      originatedFromIcloud ev = true ∨
        (alookup (stageBDel o g ic₁ es₁).entries ev.id).isSome = true := by
    intro ev hev
    have hevB : ev ∈ (stageB o g ic₁ es₁).google := delLoopB_google_shrink (todoB o g ic₁ es₁)
      ⟨(stageB o g ic₁ es₁).google, (stageB o g ic₁ es₁).entries, 0, [], []⟩ ev hev
    rcases addLoopB_google_char o (existing_google_keys g) (narrowVEvents ic₁)
        ⟨g, es₁, 0, 0, [], [], none, none⟩ ev hevB with hing | ⟨ve, hvemem, hcr⟩
    · -- ev was already in the Google snapshot
      by_cases hor : originatedFromIcloud ev = true
      · exact Or.inl hor
      · right
        have hor' : originatedFromIcloud ev = false := by
          cases hb : originatedFromIcloud ev
          · rfl
          · exact absurd hb hor
        have hcov := addLoopA_covers o (existing_icloud_keys ic) g
          ⟨ic, es, 0, 0, [], [], none⟩ hAerr ev hing hor'
        obtain ⟨v, hv⟩ := Option.isSome_iff_exists.mp hcov
        have hivg : ev.id ∈ g.map (·.id) := List.mem_map.mpr ⟨ev, hing, rfl⟩
        have hnotA : ev.id ∉ todoA o g ic es := by
          intro hmem
          obtain ⟨e', _, _, _, hcont⟩ := mem_events_to_delete_A_elim o _ _ _ ndA hmem
          rw [(scontains_iff _ _).mpr hivg] at hcont
          cases hcont
        have hpresA := delLoopA_lookup_not_mem ev.id (todoA o g ic es) hnotA
          ⟨(stageA o g ic es).entries, 0, [], []⟩ (stageA o g ic es).icloud
        have hv₁ : alookup es₁ ev.id = some v := by
          rw [hes₁]
          simp only [stageADel]
          rw [hpresA]
          exact hv
        have hvB : alookup (stageB o g ic₁ es₁).entries ev.id = some v :=
          addLoopB_lookup_mono o (existing_google_keys g) (narrowVEvents ic₁)
            ⟨g, es₁, 0, 0, [], [], none, none⟩ ev.id v hv₁
        have hnotB : ev.id ∉ todoB o g ic₁ es₁ := by
          intro hmem
          obtain ⟨e₂, he₂, hsrc₂, hwin₂, hcont₂⟩ :=
            mem_events_to_delete_B_elim o _ _ _ ndB hmem
          rw [hvB] at he₂
          injection he₂ with hve₂
          subst hve₂
          -- v is icloud-sourced: characterize where it came from
          rcases addLoopA_entries_char o (existing_icloud_keys ic) g
              ⟨ic, es, 0, 0, [], [], none⟩ ev.id v hv with hes | ⟨ev', hev'g, hid', hor'', hins⟩
          · exact H8 ev.id v hes hsrc₂ hivg
          · rcases hins with ⟨hdv, hex⟩ | hsv | ⟨m, hfv⟩
            · -- dedup entry: the matching iCloud object survives, so the key is scanned
              have hexmem : ev'.id ∈ existing_icloud_keys ic := (scontains_iff _ _).mp hex
              obtain ⟨obj, hobjic, hnarrow, ve₀, hve₀, hkey⟩ :=
                mem_existing_icloud_keys ic ev'.id hexmem
              have hcal : ∃ w, obj.data = ICalData.cal [w] := by
                rcases H1 obj hobjic with hbad | hw
                · exfalso
                  have hnil : objVEvents obj = [] := by simp [objVEvents, hbad]
                  rw [hnil] at hve₀
                  cases hve₀
                · exact hw
              obtain ⟨w, hw⟩ := hcal
              have hobjv : objVEvents obj = [w] := by simp [objVEvents, hw]
              have hve₀w : ve₀ = w := by
                rw [hobjv] at hve₀
                simpa using hve₀
              have hnarrowmem : ve₀ ∈ narrowVEvents ic :=
                (mem_narrowVEvents ic ve₀).mpr ⟨obj, hobjic, hnarrow, hve₀⟩
              have h3 := H3 ve₀ hnarrowmem
              have huid : ve₀.uid = ev'.id := by
                rw [← hkey]
                simp [veKey, h3.1]
              have hobjA : obj ∈ (stageA o g ic es).icloud :=
                addLoopA_icloud_mono o (existing_icloud_keys ic) g
                  ⟨ic, es, 0, 0, [], [], none⟩ obj hobjic
              have hkeep : obj ∈ ic₁ := by
                rw [hic₁]
                simp only [stageADel]
                refine delLoopA_keeps (todoA o g ic es)
                  ⟨(stageA o g ic es).entries, 0, [], []⟩ (stageA o g ic es).icloud obj hobjA ?_
                intro k' hk' hcontra
                have hhas : objHasUid obj k' = true := hcontra.2
                rw [show objHasUid obj k' = (w.uid == k') from by
                  simp [objHasUid, hobjv]] at hhas
                have hk'eq : k' = ev'.id := by
                  have hwk : w.uid = k' := by simpa using hhas
                  rw [← hwk, ← hve₀w, huid]
                rw [hk'eq, hid'] at hk'
                exact hnotA hk'
              have : veKey ve₀ ∈ current_icloud_ids ic₁ :=
                mem_current_icloud_ids ic₁ ve₀
                  ((mem_narrowVEvents ic₁ ve₀).mpr ⟨obj, hkeep, hnarrow, hve₀⟩)
              rw [hkey, hid'] at this
              rw [(scontains_iff _ _).mpr this] at hcont₂
              cases hcont₂
            · rw [hsv] at hsrc₂
              simp [successEntryA] at hsrc₂
            · rw [hfv] at hsrc₂
              simp [failEntryA] at hsrc₂
        have hpresB := delLoopB_lookup_not_mem ev.id (todoB o g ic₁ es₁) hnotB
          ⟨(stageB o g ic₁ es₁).google, (stageB o g ic₁ es₁).entries, 0, [], []⟩
        show (alookup (stageBDel o g ic₁ es₁).entries ev.id).isSome = true
        simp only [stageBDel]
        rw [hpresB]
        show (alookup (stageB o g ic₁ es₁).entries ev.id).isSome = true
        rw [hvB]
        rfl
    · -- ev was created by the pass itself: classified Foreign
      left
      rw [hcr]
      have hne := hveShape ve hvemem
      simp only [originatedFromIcloud, createdGEvent]
      simp [hne, H4 (veKey ve)]
  -- F2: selected Google-side deletions find no match in the surviving calendar
  have F2 : ∀ k ∈ events_to_delete_A o ((stageBDel o g ic₁ es₁).google.map (·.id))
      (stageBDel o g ic₁ es₁).entries,
      ∀ obj ∈ ic₁, ¬(obj.inWide = true ∧ objHasUid obj k = true) := by
    intro k hk
    obtain ⟨e, heE, hsrc, hwin, hcont⟩ :=
      mem_events_to_delete_A_elim o _ _ _ ndE hk
    have hB := shrinkE k e heE
    have he₁ : alookup es₁ k = some e := by
      rcases charB k e hB with h' | h'
      · exact h'
      · rw [hsrc] at h'
        exact absurd h' (by decide)
    have hA := shrinkAD k e he₁
    -- k is not a current Google id of the original snapshot
    have hknotg : k ∉ g.map (·.id) := by
      intro hkg
      obtain ⟨ev, hevg, hevid⟩ := List.mem_map.mp hkg
      by_cases htodoB : k ∈ todoB o g ic₁ es₁
      · obtain ⟨e₂, he₂, hsrc₂, _, _⟩ := mem_events_to_delete_B_elim o _ _ _ ndB htodoB
        rw [hB] at he₂
        injection he₂ with hve₂
        rw [← hve₂] at hsrc₂
        rw [hsrc] at hsrc₂
        exact absurd hsrc₂ (by decide)
      · have hevB : ev ∈ (stageB o g ic₁ es₁).google :=
          addLoopB_google_mono o (existing_google_keys g) (narrowVEvents ic₁)
            ⟨g, es₁, 0, 0, [], [], none, none⟩ ev hevg
        have hkeep : ev ∈ (stageBDel o g ic₁ es₁).google :=
          delLoopB_google_keeps (todoB o g ic₁ es₁)
            ⟨(stageB o g ic₁ es₁).google, (stageB o g ic₁ es₁).entries, 0, [], []⟩ ev hevB
            (hevid ▸ htodoB)
        have : k ∈ (stageBDel o g ic₁ es₁).google.map (·.id) :=
          List.mem_map.mpr ⟨ev, hkeep, hevid⟩
        rw [(scontains_iff _ _).mpr this] at hcont
        cases hcont
    -- hence k was selected already in pass 1
    have hsel : selectedForDeleteA o (g.map (·.id)) (k, e) = true := by
      simp only [selectedForDeleteA, Bool.and_eq_true, Bool.not_eq_true']
      refine ⟨⟨by simp [hsrc], hwin⟩, ?_⟩
      cases hc : (g.map (·.id)).contains k
      · rfl
      · exact absurd ((scontains_iff _ _).mp hc) hknotg
    have hmemA : (k, e) ∈ (stageA o g ic es).entries := mem_of_alookup _ k e hA
    have hktodoA : k ∈ todoA o g ic es := by
      show k ∈ events_to_delete_A o (g.map (·.id)) (stageA o g ic es).entries
      exact mem_events_to_delete_A_intro o (g.map (·.id)) _ k e hmemA hsel
    intro obj hobj
    have := delLoopA_clears (todoA o g ic es)
      ⟨(stageA o g ic es).entries, 0, [], []⟩ (stageA o g ic es).icloud k hktodoA obj
      (by rw [hic₁] at hobj; exact hobj)
    exact this
  refine ⟨?_, ?_, ?_, ?_⟩
  · rw [hPg, hPes]
    exact F1
  · rw [hPg, hPes, hPic]
    exact F2
  · rw [hPic, hPes]
    exact F3
  · rw [hPic, hPes]
    exact F4

/-! ## Claim theorems -/

/-- C1.  The claim asserts that in *every* propagation direction a failing
create never aborts the pass and always persists a `sync_failed` entry.
Evaluating the code: (i) in the Google → iCloud direction the claim's
three-creates scenario behaves as stated — the first and third creates
succeed, the failing second is persisted with `sync_failed = true` and the
transport's error text, and the direction reports `errors = 1`; but
(ii) in the iCloud → Google direction, when the *first* pending create of
the pass fails, the `except` handler reads the local variable
`event_start` (line 523), which is only assigned by the dedup path
(line 453) or *after* a successful insert (line 504) — so the handler
itself raises `NameError`, the pass aborts, the failing record is *not*
persisted and no error is counted, contradicting the claim. -/
theorem c1_create_failure_evaluation :
    ((sync_google_to_icloud envFail2 [gEv1, gEv2, gEv3] [] []).result.added = 2 ∧
     (sync_google_to_icloud envFail2 [gEv1, gEv2, gEv3] [] []).result.errors = 1 ∧
     (sync_google_to_icloud envFail2 [gEv1, gEv2, gEv3] [] []).err = none ∧
     alookup (sync_google_to_icloud envFail2 [gEv1, gEv2, gEv3] [] []).entries "g1" =
       some { title := some "E1", syncedAt := "T", source := "google"
              start := some (.dt true 10), syncFailed := false, error := none } ∧
     alookup (sync_google_to_icloud envFail2 [gEv1, gEv2, gEv3] [] []).entries "g2" =
       some { title := some "E2", syncedAt := "T", source := "google"
              start := some (.dt true 10), syncFailed := true, error := some "boom" } ∧
     alookup (sync_google_to_icloud envFail2 [gEv1, gEv2, gEv3] [] []).entries "g3" =
       some { title := some "E3", syncedAt := "T", source := "google"
              start := some (.dt true 10), syncFailed := false, error := none }) ∧
    ((syncPass envInsFail [] [objU1] []).err =
       some "NameError: event_start is not defined" ∧
     (syncPass envInsFail [] [objU1] []).entries = [] ∧
     (syncPass envInsFail [] [objU1] []).r2.errors = 0) := by
  decide

/-- C2 counterexample.  The claim orders the four stages as: propagate
A→B, propagate B→A, delete from B, delete from A (`claimedStageTrace`).
On a state holding one Google-sourced entry whose record vanished from
Google while iCloud holds one new pending event, the pass issues the
iCloud deletion *before* the Google create — `sync_google_to_icloud` runs
its own deletion stage before `sync_icloud_to_google` starts — so the
trace does not have the claimed shape. -/
theorem c2_stage_order_counterexample :
    (syncPass env0 [] [objG1, objU1] [("g1", entG1)]).trace =
      [Act.delB "g1", Act.createA "u1"] ∧
    claimedStageTrace (syncPass env0 [] [objG1, objU1] [("g1", entG1)]).trace = false := by
  decide

/-- C2 amended.  Every `sync()` pass executes its four stages in the
fixed order: propagate A→B, delete from B, propagate B→A, delete from A —
with no interleaving (every trace is four stage blocks concatenated in
that order, each block containing only that stage's calls; a pass-level
raise truncates the later blocks to empty). -/
theorem c2_stage_order_amended :
    ∀ (o : Env) (g : List GEvent) (ic : List ICloudObj) (es : Entries),
      actualStageTrace (syncPass o g ic es).trace = true := by
  intro o g ic es
  simp only [syncPass]
  rcases hd1 : (sync_google_to_icloud o g ic es).err with _ | err
  · simp only [hd1]
    obtain ⟨t0, t1, he1, hk0, hk1⟩ := sync_g2i_tr o g ic es
    obtain ⟨t2, t3, he2, hk2, hk3⟩ := sync_i2g_tr o (sync_google_to_icloud o g ic es).google
      (sync_google_to_icloud o g ic es).icloud (sync_google_to_icloud o g ic es).entries
    rw [he1, he2]
    have hb := actualStageTrace_of_blocks t0 t1 t2 t3 hk0 hk1 hk2 hk3
    simpa [List.append_assoc] using hb
  · simp only [hd1]
    obtain ⟨t0, t1, he1, hk0, hk1⟩ := sync_g2i_tr o g ic es
    rw [he1]
    have hb := actualStageTrace_of_blocks t0 t1 [] [] hk0 hk1 (by simp) (by simp)
    simpa using hb

/-- C3.  Evaluating the code on one state holding (i) a Google-sourced
entry with in-window start whose key left the Google snapshot, (ii) a
Google-sourced entry with out-of-window start, and (iii) an
iCloud-sourced entry with an *aware* in-window start whose key is absent
from the iCloud snapshot while its Google record survives: the A-side
halves of the claim hold — (i) is deleted from iCloud and removed, (ii)
is left untouched — but the symmetric B-side half fails: the naive
`datetime.now()` bounds cannot be compared with the aware parsed start
(Python `TypeError`, swallowed by the bare `except` of lines 544-546), so
(iii) is skipped — its Google record survives and the entry stays
tracked, contradicting the claimed symmetry. -/
theorem c3_windowed_deletion_evaluation :
    (alookup (syncPass env0 [gU1] [objG1]
        [("g1", entG1), ("g2", entG2out), ("u1", entU1aware)]).entries "g1" = none ∧
     (syncPass env0 [gU1] [objG1]
        [("g1", entG1), ("g2", entG2out), ("u1", entU1aware)]).r1.deleted = 1 ∧
     (syncPass env0 [gU1] [objG1]
        [("g1", entG1), ("g2", entG2out), ("u1", entU1aware)]).icloud = [] ∧
     alookup (syncPass env0 [gU1] [objG1]
        [("g1", entG1), ("g2", entG2out), ("u1", entU1aware)]).entries "g2" =
       some entG2out) ∧
    (alookup (syncPass env0 [gU1] [objG1]
        [("g1", entG1), ("g2", entG2out), ("u1", entU1aware)]).entries "u1" =
       some entU1aware ∧
     (syncPass env0 [gU1] [objG1]
        [("g1", entG1), ("g2", entG2out), ("u1", entU1aware)]).google = [gU1] ∧
     (syncPass env0 [gU1] [objG1]
        [("g1", entG1), ("g2", entG2out), ("u1", entU1aware)]).r2.deleted = 0) := by
  decide

/-- C4 counterexample.  One Google-sourced tracked entry whose key is in
the deletion window and absent from the Google snapshot, with *no*
matching record in the iCloud wide search: the claim says the entry is
removed from `synced_events`; the code's Google → iCloud deletion loop
(lines 346-372) only removes the entry inside the uid-match branch, so
the entry stays tracked (no error is recorded either). -/
theorem c4_not_found_counterexample :
    (syncPass env0 [] [] [("g1", entG1)]).entries = [("g1", entG1)] ∧
    (syncPass env0 [] [] [("g1", entG1)]).r1.errors = 0 ∧
    (syncPass env0 [] [] [("g1", entG1)]).r1.deleted = 0 := by
  decide

/-- C5 counterexample.  A Google-native record (`iCalUID =
"e1@google.com"`, which starts with its id `"e1"`, hence classified
Native) that already exists in the iCloud snapshot: the dedup path
records the entry without a create, but line 259 sets `source` to
`'icloud'` whenever the record carries any `iCalUID` — the recorded
source does not name side A, contradicting the claim. -/
theorem c5_dedup_source_counterexample :
    (alookup (sync_google_to_icloud env0 [gNative] [objE1] []).entries "e1").map
        SyncedEntry.source = some "icloud" ∧
    some "icloud" ≠ some "google" ∧
    (sync_google_to_icloud env0 [gNative] [objE1] []).trace = [] ∧
    (sync_google_to_icloud env0 [gNative] [objE1] []).result.added = 0 := by
  decide

/-- C7 counterexample.  Two consecutive passes fail with the same
underlying error `"boom"` but different formatted elapsed times; the
deduplication key is the full message `"Sync failed after <elapsed>:
<error>"` (line 679), so the messages differ and *both* passes notify —
not the claimed exactly one notification. -/
theorem c7_notification_storm_counterexample :
    (run_sync env0 (some "boom") "0.1s" [] [] stEmpty).notifs =
      ["Sync failed after 0.1s: boom"] ∧
    (run_sync env0 (some "boom") "0.2s" [] []
        (run_sync env0 (some "boom") "0.1s" [] [] stEmpty).st).notifs =
      ["Sync failed after 0.2s: boom"] := by
  decide

/-- C8 counterexample.  Pass 1 writes the iCloud event `u1` into Google;
Google assigns the native id `"u"`, so the stored record is
`{id: "u", iCalUID: "u1"}` — a record the engine itself wrote into A.
Because `"u1"` starts with `"u"`, the prefix heuristic of lines 241-245
classifies it Native, and the next Google → iCloud pass re-propagates it:
a fresh create with uid `"u"` is issued at iCloud, contradicting the
claim that every engine-written record is classified Foreign. -/
theorem c8_provenance_counterexample :
    (sync_icloud_to_google envPrefixId [] [objU1] []).google =
      [{ id := "u", iCalUID := "u1", summary := some "IC1", description := none
         start := .dt false 20, end_ := .dt false 21 }] ∧
    originatedFromIcloud
      { id := "u", iCalUID := "u1", summary := some "IC1", description := none
        start := .dt false 20, end_ := .dt false 21 } = false ∧
    (sync_google_to_icloud envPrefixId
        (sync_icloud_to_google envPrefixId [] [objU1] []).google [objU1]
        (sync_icloud_to_google envPrefixId [] [objU1] []).entries).trace =
      [Act.createB "u"] ∧
    (sync_google_to_icloud envPrefixId
        (sync_icloud_to_google envPrefixId [] [objU1] []).google [objU1]
        (sync_icloud_to_google envPrefixId [] [objU1] []).entries).result.added = 1 := by
  decide

/-- C9.  The spec scenario: state empty, A returns the single `Standup`
event, B empty.  After one `sync()` the iCloud calendar holds exactly one
record with the same title, start and end, and `synced_events["e1"]` is
the Google-sourced non-failed entry with title `"Standup"` and the
event's start. -/
theorem c9_standup_roundtrip :
    (run_sync env0 none "1.0s" [gStandup] [] stEmpty).ok = true ∧
    (run_sync env0 none "1.0s" [gStandup] [] stEmpty).icloud =
      [{ data := .cal [{ uid := "e1", recurrenceId := none, summary := some "Standup"
                         description := none, dtstart := .dt true 50, dtend := .dt true 51 }]
         inNarrow := true, inWide := true }] ∧
    (run_sync env0 none "1.0s" [gStandup] [] stEmpty).st.syncedEvents =
      [("e1", { title := some "Standup", syncedAt := "T", source := "google"
                start := some (.dt true 50), syncFailed := false, error := none })] := by
  decide

/-- C4 amended.  Two halves, one per direction, stated on the embedded
deletion code itself.  (i) Google → iCloud (lines 346-372): when no
object of the wide search carries a VEVENT with the tracked uid, the
scan changes nothing at all — calendar, entries (the entry stays
tracked), deletion count and trace are untouched, and this loop has no
error counter to increment.  (ii) iCloud → Google (lines 549-568): when
no Google event carries the tracked id, `events().delete` raises, and the
`except` handler removes the entry anyway — treated as success, the
deletion count and the calendar unchanged, no error recorded. -/
theorem c4_not_found_amended :
    (∀ (k : String) (acc : DelAccA) (objs : List ICloudObj),
        (∀ obj ∈ objs, ¬(obj.inWide = true ∧ objHasUid obj k = true)) →
        delScanA k acc objs = (objs, acc)) ∧
    (∀ (acc : DelAccB) (k : String),
        acc.google.any (fun g => g.id == k) = false →
        (delStepB acc k).entries = aerase acc.entries k ∧
        (delStepB acc k).deleted = acc.deleted ∧
        (delStepB acc k).google = acc.google) := by
  constructor
  · intro k acc objs h
    induction objs with
    | nil => simp [delScanA]
    | cons obj rest ih =>
      have hobj := h obj (List.mem_cons_self obj rest)
      have hcond : (obj.inWide && objHasUid obj k) = false := by
        cases hw : obj.inWide <;> cases hu : objHasUid obj k <;> simp_all
      simp only [delScanA, hcond, Bool.false_eq_true, if_false]
      rw [ih (fun o ho => h o (List.mem_cons_of_mem obj ho))]
  · intro acc k h
    unfold delStepB
    simp only [h, Bool.false_eq_true, if_false]
    by_cases hl : (alookup acc.entries k).isSome
    · obtain ⟨e, he⟩ := Option.isSome_iff_exists.mp hl
      simp [hl]
    · simp only [Option.not_isSome_iff_eq_none] at hl
      simp [hl, aerase_of_none acc.entries k hl]

/-- Witness for C4: a wide search holding only an unrelated uid leaves the
tracked `"g1"` entry and everything else untouched; a Google delete for
the absent id `"u2"` removes the entry. -/
theorem c4_not_found_amended_witness :
    delScanA "g1" ⟨[("g1", entG1)], 0, [], []⟩ [objU1] =
      ([objU1], ⟨[("g1", entG1)], 0, [], []⟩) ∧
    (delStepB ⟨[], [("u2", entU2naive)], 0, [], []⟩ "u2").entries =
      aerase [("u2", entU2naive)] "u2" :=
  ⟨c4_not_found_amended.1 "g1" ⟨[("g1", entG1)], 0, [], []⟩ [objU1] (by decide),
   (c4_not_found_amended.2 ⟨[], [("u2", entU2naive)], 0, [], []⟩ "u2" (by decide)).1⟩

/-- C5 amended.  The dedup step of the Google → iCloud direction (lines
252-263): a Native record that is untracked but whose key is already
present in the iCloud snapshot is recorded into `synced_events` and
*nothing else happens* — no create is issued (the accumulator's calendar,
counters and trace are all unchanged) — and the recorded `source` is
`'google'` only when the record carries no `iCalUID`; any annotated
record is recorded with `source = 'icloud'`. -/
theorem c5_dedup_amended :
    ∀ (o : Env) (ex : List String) (acc : AccA) (ev : GEvent),
      originatedFromIcloud ev = false →
      alookup acc.entries ev.id = none →
      ex.contains ev.id = true →
      addStepA o ex acc ev =
        { acc with entries := ainsert acc.entries ev.id (dedupEntryA o ev) } ∧
      (dedupEntryA o ev).source = (if ev.iCalUID = "" then "google" else "icloud") := by
  intro o ex acc ev h1 h2 h3
  have h3' : ev.id ∈ ex := by simpa using h3
  constructor
  · simp [addStepA, h1, h2, h3, h3']
  · by_cases h : ev.iCalUID = "" <;> simp [dedupEntryA, h]

/-- Witness for C5: the Google-native annotated record `gNative`, already
present at iCloud, is recorded by the dedup step with source
`'icloud'`. -/
theorem c5_dedup_amended_witness :
    addStepA env0 ["e1"] acc0A gNative =
      { acc0A with entries := ainsert acc0A.entries "e1" (dedupEntryA env0 gNative) } ∧
    (dedupEntryA env0 gNative).source = (if gNative.iCalUID = "" then "google" else "icloud") :=
  c5_dedup_amended env0 ["e1"] acc0A gNative (by decide) (by decide) (by decide)

/-- C7 amended.  A connectivity/authentication failure `e` before the
stages start: the pass returns failure, no stage runs (empty trace, both
calendars and the entries untouched), `lastError` ends up holding the
message `"Sync failed after <elapsed>: <error>"`, and a notification is
sent exactly when that *full message* — elapsed time included — differs
from the previously recorded `lastError`.  Two consecutive passes with
the same underlying error therefore deduplicate only when their formatted
elapsed times coincide. -/
theorem c7_pass_failure_amended :
    ∀ (o : Env) (e timeStr : String) (g : List GEvent) (ic : List ICloudObj) (st : SyncState),
      (run_sync o (some e) timeStr g ic st).ok = false ∧
      (run_sync o (some e) timeStr g ic st).trace = [] ∧
      (run_sync o (some e) timeStr g ic st).google = g ∧
      (run_sync o (some e) timeStr g ic st).icloud = ic ∧
      (run_sync o (some e) timeStr g ic st).st.syncedEvents = st.syncedEvents ∧
      (run_sync o (some e) timeStr g ic st).st.lastError = some (syncFailMsg timeStr e) ∧
      (run_sync o (some e) timeStr g ic st).notifs =
        (if st.lastError = some (syncFailMsg timeStr e) then []
         else [syncFailMsg timeStr e]) := by
  intro o e timeStr g ic st
  by_cases h : st.lastError = some (syncFailMsg timeStr e) <;>
    simp [run_sync, errorOutcome, h]

/-- C8 amended.  The provenance test of lines 241-245: a record is
classified Native exactly when it carries no annotation or its annotation
starts with the native id (equality being one instance of that prefix
relation), and every record classified Foreign is skipped without any
effect by the add loop.  An engine-written record is thus Foreign
precisely when its preserved annotation does not extend its assigned
id. -/
theorem c8_provenance_amended :
    (∀ ev : GEvent, originatedFromIcloud ev = false ↔
        ev.iCalUID = "" ∨ strStartsWith ev.iCalUID ev.id = true) ∧
    (∀ (o : Env) (ex : List String) (acc : AccA) (ev : GEvent),
        originatedFromIcloud ev = true → addStepA o ex acc ev = acc) := by
  constructor
  · intro ev
    by_cases h : ev.iCalUID = "" <;>
      cases hs : strStartsWith ev.iCalUID ev.id <;>
      simp [originatedFromIcloud, h, hs]
  · intro o ex acc ev h
    simp [addStepA, h]

/-- Witness for C8: the annotated write-back `gForeign` is Foreign and the
add loop skips it without touching the accumulator. -/
theorem c8_provenance_amended_witness :
    (originatedFromIcloud gForeign = false ↔
        gForeign.iCalUID = "" ∨ strStartsWith gForeign.iCalUID gForeign.id = true) ∧
    addStepA env0 [] acc0A gForeign = acc0A :=
  ⟨c8_provenance_amended.1 gForeign,
   c8_provenance_amended.2 env0 [] acc0A gForeign (by decide)⟩

/-- C10.  A tracked entry whose `start` field is absent or whose start
string `datetime.fromisoformat` cannot parse is skipped by the deletion
detection of both directions (`if event_start:` guard and the
`except: pass` of lines 332-343 and 535-546), and the add loops never
touch an already-tracked key — so one full pass, in whatever way it
terminates, leaves the entry in `synced_events` unchanged; by induction
the entry persists through every later pass as well. -/
theorem c10_unparseable_start_persists :
    ∀ (o : Env) (g : List GEvent) (ic : List ICloudObj) (es : Entries)
      (k : String) (e : SyncedEntry),
      (es.map Prod.fst).Nodup →
      alookup es k = some e →
      (e.start = none ∨ ∃ s, e.start = some (TimeVal.bad s)) →
      alookup (syncPass o g ic es).entries k = some e := by
  intro o g ic es k e hnd h hbad
  have hselA : selectedForDeleteA o (g.map (·.id)) (k, e) = false := by
    simp [selectedForDeleteA, inWindowStr_absent_or_bad o e hbad]
  have h1 := sync_g2i_preserves o g ic es k e hnd h hselA
  have hnd1 := sync_g2i_nodup o g ic es hnd
  simp only [syncPass]
  rcases hd1 : (sync_google_to_icloud o g ic es).err with _ | err
  · simp only [hd1]
    have hselB : selectedForDeleteB o
        (current_icloud_ids (sync_google_to_icloud o g ic es).icloud) (k, e) = false := by
      simp [selectedForDeleteB, inWindowNaive_absent_or_bad o e hbad]
    exact sync_i2g_preserves o (sync_google_to_icloud o g ic es).google
      (sync_google_to_icloud o g ic es).icloud
      (sync_google_to_icloud o g ic es).entries k e hnd1 h1 hselB
  · simp only [hd1]
    exact h1

/-- C6.  Idempotence: a second `sync()` pass, run on the calendars and
state left by a successful first pass with no external changes in
between, reports `added = 0` and `deleted = 0` in both directions (and
raises no error).  The hypotheses are sanity conditions on the external
snapshots and collaborators: the persisted dict has unique keys, each
CalDAV object parses to at most one VEVENT, scanned uids are
non-recurring and non-empty, Google event ids are non-empty, the
annotation preserved on an engine-written record never extends the
native id Google assigned for it, iCloud-sourced entries are not keyed
by current Google event ids, and the first pass completed. -/
theorem c6_second_pass_adds_and_deletes_nothing :
    ∀ (o : Env) (g : List GEvent) (ic : List ICloudObj) (es : Entries),
      (es.map Prod.fst).Nodup →
      (∀ obj ∈ ic, obj.data = ICalData.bad ∨ ∃ ve, obj.data = ICalData.cal [ve]) →
      (∀ ve ∈ narrowVEvents ic, ve.recurrenceId = none ∧ ¬ ve.uid = "") →
      (∀ k, strStartsWith k (o.assignId k) = false) →
      (∀ ev ∈ g, ¬ ev.id = "") →
      (∀ k e, alookup es k = some e → e.source = "icloud" → k ∉ g.map (·.id)) →
      (syncPass o g ic es).err = none →
      (syncPass o (syncPass o g ic es).google (syncPass o g ic es).icloud
          (syncPass o g ic es).entries).err = none ∧
      (syncPass o (syncPass o g ic es).google (syncPass o g ic es).icloud
          (syncPass o g ic es).entries).r1.added = 0 ∧
      (syncPass o (syncPass o g ic es).google (syncPass o g ic es).icloud
          (syncPass o g ic es).entries).r1.deleted = 0 ∧
      (syncPass o (syncPass o g ic es).google (syncPass o g ic es).icloud
          (syncPass o g ic es).entries).r2.added = 0 ∧
      (syncPass o (syncPass o g ic es).google (syncPass o g ic es).icloud
          (syncPass o g ic es).entries).r2.deleted = 0 := by
  intro o g ic es hnd H1 H3 H4 Hgid H8 Hok
  obtain ⟨F1, F2, F3, F4⟩ := pass1_establishes o g ic es hnd H1 H3 H4 Hgid H8 Hok
  have key : ∀ P : PassOut,
      (∀ ev ∈ P.google, originatedFromIcloud ev = true ∨
        (alookup P.entries ev.id).isSome = true) →
      (∀ k ∈ events_to_delete_A o (P.google.map (·.id)) P.entries,
        ∀ obj ∈ P.icloud, ¬(obj.inWide = true ∧ objHasUid obj k = true)) →
      (∀ ve ∈ narrowVEvents P.icloud, (alookup P.entries (veKey ve)).isSome = true) →
      events_to_delete_B o (current_icloud_ids P.icloud) P.entries = [] →
      (syncPass o P.google P.icloud P.entries).err = none ∧
      (syncPass o P.google P.icloud P.entries).r1.added = 0 ∧
      (syncPass o P.google P.icloud P.entries).r1.deleted = 0 ∧
      (syncPass o P.google P.icloud P.entries).r2.added = 0 ∧
      (syncPass o P.google P.icloud P.entries).r2.deleted = 0 := by
    intro P G1 G2 G3 G4
    have hnoop1 := sync_g2i_noop o P.google P.icloud P.entries G1 G2
    have hnoop2 := sync_i2g_noop o P.google P.icloud P.entries G3 G4
    simp only [syncPass, hnoop1, hnoop2]
    exact ⟨trivial, trivial, trivial, trivial, trivial⟩
  exact key (syncPass o g ic es) F1 F2 F3 F4

/-- Witness for C6: from the empty state, a pass that creates the single
`Standup` event at iCloud is followed by a second pass reporting zero
added and deleted events in both directions. -/
theorem c6_second_pass_adds_and_deletes_nothing_witness :
    (syncPass env0 (syncPass env0 [gStandup] [] []).google
        (syncPass env0 [gStandup] [] []).icloud
        (syncPass env0 [gStandup] [] []).entries).err = none ∧
    (syncPass env0 (syncPass env0 [gStandup] [] []).google
        (syncPass env0 [gStandup] [] []).icloud
        (syncPass env0 [gStandup] [] []).entries).r1.added = 0 ∧
    (syncPass env0 (syncPass env0 [gStandup] [] []).google
        (syncPass env0 [gStandup] [] []).icloud
        (syncPass env0 [gStandup] [] []).entries).r1.deleted = 0 ∧
    (syncPass env0 (syncPass env0 [gStandup] [] []).google
        (syncPass env0 [gStandup] [] []).icloud
        (syncPass env0 [gStandup] [] []).entries).r2.added = 0 ∧
    (syncPass env0 (syncPass env0 [gStandup] [] []).google
        (syncPass env0 [gStandup] [] []).icloud
        (syncPass env0 [gStandup] [] []).entries).r2.deleted = 0 :=
  c6_second_pass_adds_and_deletes_nothing env0 [gStandup] [] []
    (by decide) (by intro obj h; cases h) (by decide)
    (fun k => by
      have hdata : ("gid-" ++ k).data = "gid-".data ++ k.data := rfl
      show charsStart ("gid-" ++ k).data k.data = false
      rw [hdata]
      apply charsStart_of_longer
      simp
      omega)
    (by decide)
    (fun k e h => by simp [alookup] at h)
    (by decide)

/-- Witness for C10: an entry with unparseable start survives a full pass
that deletes a sibling entry. -/
theorem c10_unparseable_start_persists_witness :
    alookup (syncPass env0 [] [] [("g1", entG1), ("b1", entBadStart)]).entries "b1" =
      some entBadStart :=
  c10_unparseable_start_persists env0 [] [] [("g1", entG1), ("b1", entBadStart)]
    "b1" entBadStart (by decide) (by decide) (Or.inr ⟨"not-a-date", by decide⟩)

end CalendarSync
